import Mathlib

/-!
# HFShower: hit building for one simulation step

Shallow embedding of `SimG4CMS/Calo/src/HFShower.cc`.

* `double` values are exact rationals (`ℚ`); `int` values are `Int`.
* `std::vector` indexing is bounds-checked: an index outside the vector is a
  `Fault` (the C++ read is undefined there).
* The process-wide random engine behind `G4UniformRand()` is an explicit state
  that is threaded through the calls.
* The classes `HFCherenkov`, `HFFibre`, `HFFibreFiducial` and the C library
  `exp` are not part of this file's source; they are parameters
  (`Collaborators`).
-/

namespace HFShower

/-- Three-vector of doubles (`G4ThreeVector`). -/
structure G4ThreeVector where
  x : ℚ
  y : ℚ
  z : ℚ
  deriving DecidableEq, Repr

/-- What `getHits` reads from a `G4Step` through its accessors. -/
structure G4Step where
  /-- Accessor `aStep->GetTotalEnergyDeposit()`. -/
  totalEnergyDeposit : ℚ
  /-- Accessor `aStep->GetStepLength()`. -/
  stepLength : ℚ
  /-- Accessor `aStep->GetTrack()->GetDefinition()->GetPDGCharge()`. -/
  pdgCharge : ℚ
  /-- Accessor `aParticle->GetTotalEnergy()`. -/
  totalEnergy : ℚ
  /-- Accessor `aParticle->GetTotalMomentum()`. -/
  totalMomentum : ℚ
  /-- Accessor `aParticle->GetMomentumDirection()`. -/
  momentumDirection : G4ThreeVector
  /-- Accessor `preStepPoint->GetPosition()`. -/
  prePosition : G4ThreeVector
  /-- Accessor `preStepPoint->GetTouchable()->GetHistory()->GetTopTransform().TransformAxis`. -/
  transformAxis : G4ThreeVector → G4ThreeVector
  /-- Accessor `preStepPoint->GetTouchable()->GetReplicaNumber(0)`. -/
  replicaNumber : Int
  /-- Accessor `preStepPoint->GetTouchable()->GetVolume(1)->GetObjectTranslation()`. -/
  objectTranslation : G4ThreeVector
  /-- Accessor `aStep->GetPostStepPoint()->GetGlobalTime()`. -/
  postGlobalTime : ℚ

/-- Output record `HFShower::Hit`. -/
structure Hit where
  depth : Int
  time : ℚ
  wavelength : ℚ
  momentum : ℚ
  position : G4ThreeVector
  deriving DecidableEq, Repr

/-- State of the random engine behind `G4UniformRand()`: the sequence of numbers
it will deliver and how many of them have been consumed. -/
structure RandomEngine where
  seq : Nat → ℚ
  pos : Nat

/-- One call of `G4UniformRand()`: the next number and the advanced engine. -/
def G4UniformRand (e : RandomEngine) : ℚ × RandomEngine :=
  (e.seq e.pos, { e with pos := e.pos + 1 })

/-- The vectors held by the `HFCherenkov` object, as read by `getWL()` and
`getMom()`. -/
structure HFCherenkov where
  wlv : List ℚ
  momZ : List ℚ
  deriving DecidableEq, Repr

/-- Result of one `cherenkov->computeNPE(...)` call: the returned count, the
object's vectors after the call, and the random engine after the call. -/
structure NPEResult where
  npe : Int
  cherenkov : HFCherenkov
  engine : RandomEngine

/-- The code outside this file that `getHits` calls. -/
structure Collaborators where
  /-- Method `HFCherenkov::computeNPE(aStep, particleDef, pBeta, u, v, w, stepl, zFibre,
  dose, npeDose)`; `particleDef` is read from the step. It may change the
  object's vectors and draw from the random engine. -/
  computeNPE : HFCherenkov → RandomEngine → G4Step → ℚ → ℚ → ℚ → ℚ → ℚ → ℚ → ℚ → Int →
    NPEResult
  /-- Accessor `HFFibre::attLength(lambda)`. -/
  attLength : ℚ → ℚ
  /-- Accessor `HFFibre::tShift(point, depth, fromEndAbs)`. -/
  tShift : G4ThreeVector → Int → Int → ℚ
  /-- Accessor `HFFibreFiducial::PMTNumber(pos)`. -/
  PMTNumber : G4ThreeVector → Int
  /-- Function `exp` of the C library. -/
  exp : ℚ → ℚ
  /-- The value of a default-constructed `HFShower::Hit` (`HFShower::Hit hit;`) -/
  defaultHit : Hit

/-- Data members of an `HFShower` object. -/
structure Shower where
  applyFidCut : Bool
  probMax : ℚ
  chkFibre : Int
  gpar : List ℚ
  cherenkov : HFCherenkov

/-- A read outside the bounds of a `std::vector`. -/
inductive Fault where
  | outOfRange
  deriving DecidableEq, Repr

/-- Bounds-checked `v[i]` for a vector of doubles. -/
def vecAt (v : List ℚ) (i : Nat) : Except Fault ℚ :=
  match v[i]? with
  | some a => .ok a
  | none => .error .outOfRange

/-- What a `getHits` call leaves behind: the returned vector of hits, and the
states of the `HFCherenkov` object and of the random engine after the call. -/
structure Outcome where
  hits : List Hit
  cherenkov : HFCherenkov
  engine : RandomEngine

/-- Lines 49-52 (the same text at 173-176 and 298-301): `stepl`, the step length
of a charged particle and zero for a neutral one. -/
def chargedStepLength (aStep : G4Step) : ℚ :=
  if aStep.pdgCharge ≠ 0 then aStep.stepLength else 0

/-- Lines 63-67, 78, 106-108 and 125 (the same text in the other two overloads):
the call `cherenkov->computeNPE(aStep, particleDef, pBeta, u, v, w, stepl, zFibre,
dose, npeDose)` with the arguments as `getHits` computes them. -/
def computeNPEAt (c : Collaborators) (s : Shower) (eng : RandomEngine) (aStep : G4Step)
    (stepl zFibre : ℚ) : NPEResult :=
  let energy := aStep.totalEnergy
  let momentum := aStep.totalMomentum
  let pBeta := momentum / energy
  let dose : ℚ := 0
  let npeDose : Int := 0
  let momentumDir := aStep.momentumDirection
  let localMom := aStep.transformAxis momentumDir
  let u := localMom.x
  let v := localMom.y
  let w := localMom.z
  c.computeNPE s.cherenkov eng aStep pBeta u v w stepl zFibre dose npeDose

/-- Lines 80-103 (the same text at 205-228 and 329-352): the validity gate on
`zv` and the fiducial decision. Returns `(ok, depth)`. -/
def fiducial (c : Collaborators) (s : Shower) (aStep : G4Step) (zv : ℚ) :
    Except Fault (Bool × Int) := do
  let depth : Int := 1
  -- `zv < 0. || zv > gpar[1]`: the right operand is read only when the left is false
  let beyond ← if zv < 0 then pure true else do
    let g1 ← vecAt s.gpar 1
    pure (decide (zv > g1))
  let ok : Bool := if beyond then false else true
  if ok && s.applyFidCut then
    let npmt : Int := c.PMTNumber aStep.prePosition
    if npmt ≤ 0 then
      pure (false, depth)
    else if npmt > 24 then do
      let g0 ← vecAt s.gpar 0
      if zv > g0 then pure (ok, 2) else pure (false, depth)
    else
      pure (ok, depth)
  else
    pure (ok, Int.tmod aStep.replicaNumber 10)

/-- Lines 130-155 (the same text at 255-280): the loop over candidate photons,
from index `i`, with `n` iterations left. The loop state is the local `hit`,
the vector `hits` and the random engine. -/
def photonLoop (c : Collaborators) (s : Shower) (zFibre tSlice time : ℚ) (depth : Int)
    (globalPos : G4ThreeVector) (wavelength momz : List ℚ) :
    Nat → Nat → Hit → List Hit → RandomEngine → Except Fault (Hit × List Hit × RandomEngine)
  | 0, _, hit, hits, eng => pure (hit, hits, eng)
  | n + 1, i, hit, hits, eng => do
    let p ← if !s.applyFidCut then do
        let wl ← vecAt wavelength i
        pure (c.attLength wl)
      else pure 1
    let (r1, eng1) := G4UniformRand eng
    let (r2, eng2) := G4UniformRand eng1
    if s.applyFidCut || decide (s.chkFibre < 0) ||
        (decide (r1 ≤ c.exp (-p * zFibre)) && decide (r2 ≤ s.probMax)) then
      let hit1 := { hit with depth := depth, time := tSlice + time }
      let hit2 ← if !s.applyFidCut then do
          let wl ← vecAt wavelength i
          let mz ← vecAt momz i
          pure { hit1 with wavelength := wl, momentum := mz }
        else pure { hit1 with wavelength := 300, momentum := 1 }
      let hit3 := { hit2 with position := globalPos }
      photonLoop c s zFibre tSlice time depth globalPos wavelength momz n (i + 1)
        hit3 (hits ++ [hit3]) eng2
    else
      photonLoop c s zFibre tSlice time depth globalPos wavelength momz n (i + 1)
        hit hits eng2

/-- Lines 59-165 (the same text at 183-290) once `stepl` and `zv` are known:
the part that `getHits(aStep, weight)` and
`getHits(aStep, forLibraryProducer, zoffset)` have in common. -/
def buildHits (c : Collaborators) (s : Shower) (eng : RandomEngine) (aStep : G4Step)
    (stepl zv : ℚ) : Except Fault Outcome := do
  let hit : Hit := c.defaultHit
  let globalPos := aStep.prePosition
  let localPos : G4ThreeVector := ⟨globalPos.x, globalPos.y, zv⟩
  let (ok, depth) ← fiducial c s aStep zv
  let translation := aStep.objectTranslation
  let zCoor := localPos.z
  let g1 ← vecAt s.gpar 1
  let zFibre := 0.5 * g1 - zCoor - translation.z
  let tSlice := aStep.postGlobalTime
  let time := c.tShift localPos depth s.chkFibre
  -- `int npe = 1;` and two empty vectors, overwritten when no fiducial cut applies
  let (npe, wavelength, momz, cherenkov, eng0) :=
    if !s.applyFidCut then
      if ok then
        let r := computeNPEAt c s eng aStep stepl zFibre
        (r.npe, r.cherenkov.wlv, r.cherenkov.momZ, r.cherenkov, r.engine)
      else
        ((1 : Int), s.cherenkov.wlv, s.cherenkov.momZ, s.cherenkov, eng)
    else
      ((1 : Int), ([] : List ℚ), ([] : List ℚ), s.cherenkov, eng)
  if ok && decide (npe > 0) then
    let (_, hits, eng1) ←
      photonLoop c s zFibre tSlice time depth globalPos wavelength momz npe.toNat 0 hit [] eng0
    pure { hits := hits, cherenkov := cherenkov, engine := eng1 }
  else
    pure { hits := [], cherenkov := cherenkov, engine := eng0 }

/-- Lines 40-166: `HFShower::getHits(const G4Step*, double weight)`. -/
def getHits (c : Collaborators) (s : Shower) (eng : RandomEngine) (aStep : G4Step)
    (weight : ℚ) : Except Fault Outcome := do
  let edep := weight * aStep.totalEnergyDeposit
  let stepl := chargedStepLength aStep
  if edep = 0 ∨ stepl = 0 then
    pure { hits := [], cherenkov := s.cherenkov, engine := eng }
  else do
    let globalPos := aStep.prePosition
    let g4 ← vecAt s.gpar 4
    let zv := |globalPos.z| - g4
    buildHits c s eng aStep stepl zv

/-- Lines 168-291:
`HFShower::getHits(const G4Step*, bool forLibraryProducer, double zoffset)`. -/
def getHitsOffset (c : Collaborators) (s : Shower) (eng : RandomEngine) (aStep : G4Step)
    (forLibraryProducer : Bool) (zoffset : ℚ) : Except Fault Outcome := do
  let _ := forLibraryProducer
  let edep := aStep.totalEnergyDeposit
  let stepl := chargedStepLength aStep
  if edep = 0 ∨ stepl = 0 then
    pure { hits := [], cherenkov := s.cherenkov, engine := eng }
  else do
    let globalPos := aStep.prePosition
    let g1 ← vecAt s.gpar 1
    let zv := g1 - (|globalPos.z| - zoffset)
    buildHits c s eng aStep stepl zv

/-- Lines 375-382: the loop of `getHits(const G4Step*, bool forLibrary)`: one hit
per photon index; `hit.depth` is never assigned. -/
def libraryLoop (tSlice time : ℚ) (globalPos : G4ThreeVector) (wavelength momz : List ℚ) :
    Nat → Nat → Hit → List Hit → Except Fault (Hit × List Hit)
  | 0, _, hit, hits => pure (hit, hits)
  | n + 1, i, hit, hits => do
    let hit1 := { hit with time := tSlice + time }
    let wl ← vecAt wavelength i
    let hit2 := { hit1 with wavelength := wl }
    let mz ← vecAt momz i
    let hit3 := { hit2 with momentum := mz }
    let hit4 := { hit3 with position := globalPos }
    libraryLoop tSlice time globalPos wavelength momz n (i + 1) hit4 (hits ++ [hit4])

/-- Lines 293-385: `HFShower::getHits(const G4Step*, bool forLibrary)`. -/
def getHitsLibrary (c : Collaborators) (s : Shower) (eng : RandomEngine) (aStep : G4Step)
    (forLibrary : Bool) : Except Fault Outcome := do
  let _ := forLibrary
  let edep := aStep.totalEnergyDeposit
  let stepl := chargedStepLength aStep
  if edep = 0 ∨ stepl = 0 then
    pure { hits := [], cherenkov := s.cherenkov, engine := eng }
  else do
    let hit : Hit := c.defaultHit
    let globalPos := aStep.prePosition
    let g4 ← vecAt s.gpar 4
    let g1 ← vecAt s.gpar 1
    let zv := |globalPos.z| - g4 - 0.5 * g1
    let localPos : G4ThreeVector := ⟨globalPos.x, globalPos.y, zv⟩
    let (ok, depth) ← fiducial c s aStep zv
    let translation := aStep.objectTranslation
    let zCoor := localPos.z
    let zFibre := 0.5 * g1 - zCoor - translation.z
    let tSlice := aStep.postGlobalTime
    let time := c.tShift localPos depth s.chkFibre
    let (npe, cherenkov, eng0) :=
      if ok then
        let r := computeNPEAt c s eng aStep stepl zFibre
        (r.npe, r.cherenkov, r.engine)
      else
        ((0 : Int), s.cherenkov, eng)
    let wavelength := cherenkov.wlv
    let momz := cherenkov.momZ
    let (_, hits) ←
      libraryLoop tSlice time globalPos wavelength momz npe.toNat 0 hit []
    pure { hits := hits, cherenkov := cherenkov, engine := eng0 }

/-- The three overloads of `HFShower::getHits`, with their arguments besides
the step. -/
inductive Overload where
  /-- Mode A: `getHits(aStep, weight)`. -/
  | weighted (weight : ℚ)
  /-- Mode B: `getHits(aStep, forLibraryProducer, zoffset)`. -/
  | offset (forLibraryProducer : Bool) (zoffset : ℚ)
  /-- Mode C: `getHits(aStep, forLibrary)`. -/
  | library (forLibrary : Bool)

/-- Overload resolution: the call `getHits(aStep, ...)` with the given
arguments. -/
def call (c : Collaborators) (s : Shower) (eng : RandomEngine) (aStep : G4Step) :
    Overload → Except Fault Outcome
  | .weighted weight => getHits c s eng aStep weight
  | .offset forLibraryProducer zoffset => getHitsOffset c s eng aStep forLibraryProducer zoffset
  | .library forLibrary => getHitsLibrary c s eng aStep forLibrary

/-- Modes A and B: the two overloads with survival sampling. -/
def Overload.sampled : Overload → Bool
  | .weighted _ => true
  | .offset _ _ => true
  | .library _ => false

/-- Lines 44, 172 and 297: the local `edep` of each overload. -/
def edepOf (aStep : G4Step) : Overload → ℚ
  | .weighted weight => weight * aStep.totalEnergyDeposit
  | .offset _ _ => aStep.totalEnergyDeposit
  | .library _ => aStep.totalEnergyDeposit

/-- Lines 76, 201 and 325: the local `zv` of each overload. -/
def zvOf (gpar : List ℚ) (aStep : G4Step) : Overload → Except Fault ℚ
  | .weighted _ => do
    let g4 ← vecAt gpar 4
    pure (|aStep.prePosition.z| - g4)
  | .offset _ zoffset => do
    let g1 ← vecAt gpar 1
    pure (g1 - (|aStep.prePosition.z| - zoffset))
  | .library _ => do
    let g4 ← vecAt gpar 4
    let g1 ← vecAt gpar 1
    pure (|aStep.prePosition.z| - g4 - 0.5 * g1)

/-- The contract of the yield model that `getHits` relies on without checking:
the vectors read by `getWL()` and `getMom()` hold an entry for each of the `npe`
photons. -/
def NPEResult.matched (r : NPEResult) : Prop :=
  r.npe.toNat ≤ r.cherenkov.wlv.length ∧ r.npe.toNat ≤ r.cherenkov.momZ.length

instance (r : NPEResult) : Decidable r.matched := by
  unfold NPEResult.matched; infer_instance

/-- What iteration `k` of the photon loop appends for photon index `j`, when the
loop starts with the engine `eng`: the loop body of lines 131-154 with its two
draws read off the engine's sequence. -/
def candidate (c : Collaborators) (s : Shower) (zFibre tSlice time : ℚ) (depth : Int)
    (globalPos : G4ThreeVector) (wavelength momz : List ℚ) (eng : RandomEngine)
    (j k : Nat) : Option Hit :=
  let p : ℚ := if s.applyFidCut then 1 else c.attLength (wavelength.getD j 0)
  let r1 := eng.seq (eng.pos + 2 * k)
  let r2 := eng.seq (eng.pos + 2 * k + 1)
  if s.applyFidCut || decide (s.chkFibre < 0) ||
      (decide (r1 ≤ c.exp (-p * zFibre)) && decide (r2 ≤ s.probMax)) then
    some ⟨depth, tSlice + time, if s.applyFidCut then 300 else wavelength.getD j 0,
      if s.applyFidCut then 1 else momz.getD j 0, globalPos⟩
  else none

/-- What `initRun` reads from the `HcalDDDSimConstants` object. -/
structure HcalDDDSimConstants where
  /-- Accessor `hcons->getGparHF()`. -/
  getGparHF : List ℚ

/-- Lines 387-393: `HFShower::initRun`. Returns the object after the call and
how the call ended. The only statement that can raise is `fibre->initRun(hcons)`,
whose code is in `HFFibre`; it is the parameter `fibre` (`none` for a null
pointer), and it runs after `gpar` has been assigned. -/
def initRun {ε : Type} (fibre : Option (HcalDDDSimConstants → Except ε Unit)) (s : Shower)
    (hcons : HcalDDDSimConstants) : Shower × Except ε Unit :=
  let s1 := { s with gpar := hcons.getGparHF }
  match fibre with
  | some fibreInitRun => (s1, fibreInitRun hcons)
  | none => (s1, pure ())

/-! ## Concrete inputs used to exercise the theorems -/

/-- A yield model that returns three photons and leaves the random engine alone. -/
def demoCollaborators : Collaborators where
  computeNPE := fun _ e _ _ _ _ _ _ _ _ _ => ⟨3, ⟨[300, 400, 500], [1, 2, 3]⟩, e⟩
  attLength := fun _ => 0
  tShift := fun _ _ _ => 7
  PMTNumber := fun _ => 30
  exp := fun _ => 1 / 2
  defaultHit := ⟨0, 0, 0, 0, ⟨0, 0, 0⟩⟩

/-- A charged step at `|z| = 30` that deposits energy. -/
def demoStep : G4Step where
  totalEnergyDeposit := 5
  stepLength := 1
  pdgCharge := 1
  totalEnergy := 10
  totalMomentum := 9
  momentumDirection := ⟨0, 0, 1⟩
  prePosition := ⟨1, 2, 30⟩
  transformAxis := id
  replicaNumber := 1
  objectTranslation := ⟨0, 0, 0⟩
  postGlobalTime := 100

/-- The run geometry `gpar = [50, 100, 0, 0, 20]` with sampling on and no
fiducial cut. -/
def demoShower : Shower := ⟨false, 1, 1, [50, 100, 0, 0, 20], ⟨[], []⟩⟩

/-- A random engine delivering 9/10, 1/10, 1/10, 1/10, 9/10, ... -/
def demoEngine : RandomEngine := ⟨fun n => if n % 4 = 0 then 9 / 10 else 1 / 10, 0⟩

end HFShower

/-!
# HLTMultipletFilter: selection on the number of level-1 candidates

Shallow embedding of `HLTrigger/special/src/HLTMultipletFilter.cc`, lines 90-158.
The tags that `hltFilter` adds to `filterproduct` (lines 93-99) and the log
messages do not enter the returned flag and are left out.
-/

namespace HLTMultipletFilter

/-- The enumeration `HLTMultipletFilter::Types` that indexes `flag_`. -/
inductive Types where
  | EGamma
  | EtSum
  | Jet
  | Muon
  | Tau
  deriving DecidableEq, Repr

/-- What `objects` reads from a level-1 candidate. -/
structure L1Candidate where
  /-- Accessor `p->pt()`. -/
  pt : ℚ
  /-- Accessor `p->eta()`. -/
  eta : ℚ
  /-- Accessor `p->phi()`. -/
  phi : ℚ
  deriving DecidableEq, Repr

/-- Data members of the filter that `hltFilter` and `objects` read. -/
structure Filter where
  minN : Int
  minEta : ℚ
  maxEta : ℚ
  minPhi : ℚ
  maxPhi : ℚ
  minPt : ℚ
  /-- Member `flag_[type]`: the collection of this type has an input tag. -/
  flag : Types → Bool

/-- What `objects` reads from the event: for each type, the candidates of bunch
crossing 0 (`objs->begin(0)` to `objs->end(0)`), or `none` when the handle is not
valid. -/
structure Event where
  getByToken : Types → Option (List L1Candidate)

/-- The constant `M_PI` of `<cmath>`: the double nearest to pi. -/
def M_PI : ℚ := 884279719003555 / 281474976710656

/-- Lines 148-153: the body of the loop in `objects`, on the running count. -/
def objectsBody (f : Filter) (p : L1Candidate) (nobj : Int) : Int :=
  if p.pt > f.minPt then
    if p.eta > f.minEta ∧ p.eta < f.maxEta then
      let phi := p.phi
      let phi := if phi < 0 then phi + 2 * M_PI else phi
      if phi > f.minPhi ∧ phi < f.maxPhi then nobj + 1 else nobj
    else nobj
  else nobj

/-- Lines 146-155: the loop over the candidates of bunch crossing 0. -/
def objectsLoop (f : Filter) : List L1Candidate → Int → Int
  | [], nobj => nobj
  | p :: rest, nobj => objectsLoop f rest (objectsBody f p nobj)

/-- Lines 130-158: `HLTMultipletFilter::objects`, with `ibx = 0`. -/
def objects (f : Filter) (iEvent : Event) (type : Types) : Int :=
  let nobj : Int := 0
  match iEvent.getByToken type with
  | none => nobj
  | some objs => objectsLoop f objs nobj

/-- Lines 105-108 (the same text at 109-124 for the other types): one block of
`hltFilter`, on the pair `(accept, nobj)`. -/
def block (f : Filter) (iEvent : Event) (type : Types) (st : Bool × Int) : Bool × Int :=
  let (accept, nobj) := st
  if (!accept) && f.flag type then
    let nobj := nobj + objects f iEvent type
    if nobj > f.minN then (true, nobj) else (accept, nobj)
  else (accept, nobj)

/-- Lines 90-128: `HLTMultipletFilter::hltFilter`, the returned flag. -/
def hltFilter (f : Filter) (iEvent : Event) : Bool :=
  let st : Bool × Int := (false, 0)
  let st := block f iEvent .EGamma st
  let st := block f iEvent .EtSum st
  let st := block f iEvent .Jet st
  let st := block f iEvent .Muon st
  let st := block f iEvent .Tau st
  st.1

/-- The cuts as the claim words them: `pt > minPt`, `minEta < eta < maxEta` and
`minPhi < phi' < maxPhi`, with `phi' = phi + 2 pi` when `phi < 0`. -/
def passesCuts (f : Filter) (p : L1Candidate) : Bool :=
  decide (p.pt > f.minPt) && decide (f.minEta < p.eta ∧ p.eta < f.maxEta) &&
    decide (f.minPhi < (if p.phi < 0 then p.phi + 2 * M_PI else p.phi) ∧
      (if p.phi < 0 then p.phi + 2 * M_PI else p.phi) < f.maxPhi)

/-- The number of candidates of one type that pass the cuts, counted when the
type is enabled and its collection is present in the event. -/
def passing (f : Filter) (iEvent : Event) (type : Types) : Int :=
  if f.flag type then
    match iEvent.getByToken type with
    | none => 0
    | some objs => ((objs.filter (passesCuts f)).length : Int)
  else 0

/-- The total of the claim: the passing candidates summed over the five types. -/
def passingTotal (f : Filter) (iEvent : Event) : Int :=
  passing f iEvent .EGamma + passing f iEvent .EtSum + passing f iEvent .Jet
    + passing f iEvent .Muon + passing f iEvent .Tau

/-- The state of `hltFilter` after some blocks: `total` is the sum of `passing`
over the types handled so far and `enabled` says that one of them is enabled. -/
def BlockInv (f : Filter) (st : Bool × Int) (total : Int) (enabled : Prop) : Prop :=
  (st.1 = true → f.minN < total ∧ enabled) ∧
  (st.1 = false → st.2 = total ∧ (enabled → total ≤ f.minN))

/-- The default cuts of `fillDescriptions` with only jets and taus enabled. -/
def demoFilter : Filter where
  minN := 1
  minEta := 1305 / 1000
  maxEta := 3
  minPhi := 54105 / 10000
  maxPhi := 55796 / 10000
  minPt := 20
  flag := fun t => match t with
    | .Jet => true
    | .Tau => true
    | _ => false

/-- An event with two passing jets (one given with a negative `phi`), one failing
jet and no tau collection. -/
def demoEvent : Event where
  getByToken := fun t => match t with
    | .Jet => some [⟨30, 2, 55 / 10⟩, ⟨25, 2, -78 / 100⟩, ⟨10, 2, 55 / 10⟩]
    | _ => none

end HLTMultipletFilter

namespace HFShower

/-! ## Lemmas on the embedding -/

theorem ok_bind {α β : Type} (a : α) (f : α → Except Fault β) :
    (Except.ok a >>= f) = f a := rfl

theorem error_bind {α β : Type} (e : Fault) (f : α → Except Fault β) :
    ((Except.error e : Except Fault α) >>= f) = Except.error e := rfl

theorem vecAt_of_some {v : List ℚ} {i : Nat} {a : ℚ} (h : v[i]? = some a) :
    vecAt v i = .ok a := by
  simp [vecAt, h]

theorem vecAt_of_lt {v : List ℚ} {i : Nat} (h : i < v.length) :
    vecAt v i = .ok (v.getD i 0) := by
  simp [vecAt, List.getD, List.getElem?_eq_getElem h]

theorem vecAt_ok_iff {v : List ℚ} {i : Nat} {a : ℚ} :
    vecAt v i = .ok a ↔ v[i]? = some a := by
  unfold vecAt
  cases h : v[i]? <;> simp

theorem photonLoop_eq (c : Collaborators) (s : Shower) (zFibre tSlice time : ℚ) (depth : Int)
    (globalPos : G4ThreeVector) (wavelength momz : List ℚ) (n : Nat) :
    ∀ (i : Nat) (hit : Hit) (hits : List Hit) (eng : RandomEngine),
      (s.applyFidCut = false → i + n ≤ wavelength.length ∧ i + n ≤ momz.length) →
      ∃ hit1, photonLoop c s zFibre tSlice time depth globalPos wavelength momz n i hit hits eng
        = .ok (hit1,
            hits ++ (List.range n).filterMap (fun k =>
              candidate c s zFibre tSlice time depth globalPos wavelength momz eng (i + k) k),
            ⟨eng.seq, eng.pos + 2 * n⟩) := by
  induction n with
  | zero =>
    intro i hit hits eng _
    exact ⟨hit, by simp [photonLoop]; rfl⟩
  | succ n ih =>
    intro i hit hits eng hb
    have hshift : ∀ k, candidate c s zFibre tSlice time depth globalPos wavelength momz
        ⟨eng.seq, eng.pos + 1 + 1⟩ (i + 1 + k) k
        = candidate c s zFibre tSlice time depth globalPos wavelength momz eng (i + (k + 1)) (k + 1) := by
      intro k
      simp only [candidate]
      have e1 : eng.pos + 1 + 1 + 2 * k = eng.pos + 2 * (k + 1) := by ring
      have e2 : i + 1 + k = i + (k + 1) := by ring
      rw [e1, e2]
    have hpos : eng.pos + 1 + 1 + 2 * n = eng.pos + 2 * (n + 1) := by ring
    have hfun : (fun k => candidate c s zFibre tSlice time depth globalPos wavelength momz eng
          (i + k) k) ∘ Nat.succ
        = fun k => candidate c s zFibre tSlice time depth globalPos wavelength momz
          ⟨eng.seq, eng.pos + 1 + 1⟩ (i + 1 + k) k := by
      funext k
      exact (hshift k).symm
    rw [List.range_succ_eq_map, List.filterMap_cons, List.filterMap_map, hfun]
    cases hf : s.applyFidCut with
    | true =>
      obtain ⟨h1, hh⟩ := ih (i + 1)
        ⟨depth, tSlice + time, 300, 1, globalPos⟩
        (hits ++ [⟨depth, tSlice + time, 300, 1, globalPos⟩]) ⟨eng.seq, eng.pos + 1 + 1⟩
        (by simp [hf])
      refine ⟨h1, ?_⟩
      simp only [photonLoop, G4UniformRand, hf, Bool.not_true, Bool.false_eq_true, if_false,
        Bool.true_or, if_true, pure_bind]
      rw [hh, hpos]
      simp [candidate, hf]
    | false =>
      obtain ⟨hw, hm⟩ := hb hf
      have hwi : vecAt wavelength i = .ok (wavelength.getD i 0) := vecAt_of_lt (by omega)
      have hmi : vecAt momz i = .ok (momz.getD i 0) := vecAt_of_lt (by omega)
      by_cases hacc : (decide (s.chkFibre < 0) ||
          (decide (eng.seq eng.pos ≤ c.exp (-(c.attLength (wavelength.getD i 0)) * zFibre)) &&
            decide (eng.seq (eng.pos + 1) ≤ s.probMax))) = true
      · obtain ⟨h1, hh⟩ := ih (i + 1)
          ⟨depth, tSlice + time, wavelength.getD i 0, momz.getD i 0, globalPos⟩
          (hits ++ [⟨depth, tSlice + time, wavelength.getD i 0, momz.getD i 0, globalPos⟩])
          ⟨eng.seq, eng.pos + 1 + 1⟩ (by intro _; omega)
        have hc0 : candidate c s zFibre tSlice time depth globalPos wavelength momz eng (i + 0) 0
            = some ⟨depth, tSlice + time, wavelength.getD i 0, momz.getD i 0, globalPos⟩ := by
          simp only [candidate, hf, Bool.false_or, Nat.add_zero, Nat.mul_zero,
            Bool.false_eq_true, if_false]
          rw [if_pos hacc]
        refine ⟨h1, ?_⟩
        simp only [photonLoop, G4UniformRand, hf, hwi, hmi, Bool.not_false, if_true,
          Bool.false_or, pure_bind, ok_bind, hacc]
        rw [hh, hc0]
        simp only [hpos, List.append_assoc, List.singleton_append]
      · obtain ⟨h1, hh⟩ := ih (i + 1) hit hits ⟨eng.seq, eng.pos + 1 + 1⟩ (by intro _; omega)
        have hc0 : candidate c s zFibre tSlice time depth globalPos wavelength momz eng (i + 0) 0
            = none := by
          simp only [candidate, hf, Bool.false_or, Nat.add_zero, Nat.mul_zero,
            Bool.false_eq_true, if_false]
          rw [if_neg hacc]
        refine ⟨h1, ?_⟩
        simp only [photonLoop, G4UniformRand, hf, hwi, hmi, Bool.not_false, if_true,
          Bool.false_or, pure_bind, ok_bind, hacc]
        rw [hh, hc0]
        simp only [hpos, Bool.false_eq_true, if_false]

theorem libraryLoop_eq (tSlice time : ℚ) (globalPos : G4ThreeVector) (wavelength momz : List ℚ)
    (n : Nat) :
    ∀ (i : Nat) (hit : Hit) (hits : List Hit),
      i + n ≤ wavelength.length → i + n ≤ momz.length →
      ∃ hit1, libraryLoop tSlice time globalPos wavelength momz n i hit hits
        = .ok (hit1, hits ++ (List.range n).map (fun k =>
            (⟨hit.depth, tSlice + time, wavelength.getD (i + k) 0, momz.getD (i + k) 0,
              globalPos⟩ : Hit))) := by
  induction n with
  | zero =>
    intro i hit hits _ _
    exact ⟨hit, by simp [libraryLoop]; rfl⟩
  | succ n ih =>
    intro i hit hits hw hm
    have hwi : vecAt wavelength i = .ok (wavelength.getD i 0) := vecAt_of_lt (by omega)
    have hmi : vecAt momz i = .ok (momz.getD i 0) := vecAt_of_lt (by omega)
    obtain ⟨h1, hh⟩ := ih (i + 1)
      ⟨hit.depth, tSlice + time, wavelength.getD i 0, momz.getD i 0, globalPos⟩
      (hits ++ [⟨hit.depth, tSlice + time, wavelength.getD i 0, momz.getD i 0, globalPos⟩])
      (by omega) (by omega)
    refine ⟨h1, ?_⟩
    have hfun : (fun k => (⟨hit.depth, tSlice + time, wavelength.getD (i + k) 0,
          momz.getD (i + k) 0, globalPos⟩ : Hit)) ∘ Nat.succ
        = fun k => (⟨hit.depth, tSlice + time, wavelength.getD (i + 1 + k) 0,
          momz.getD (i + 1 + k) 0, globalPos⟩ : Hit) := by
      funext k
      have e : i + (k + 1) = i + 1 + k := by ring
      simp only [Function.comp, Nat.succ_eq_add_one, e]
    rw [List.range_succ_eq_map, List.map_cons, List.map_map, hfun]
    simp only [libraryLoop, hwi, hmi, ok_bind]
    rw [hh]
    simp only [List.append_assoc, List.singleton_append, Nat.add_zero]

theorem fiducial_outside (c : Collaborators) (s : Shower) (aStep : G4Step) (zv g1 : ℚ)
    (h1 : s.gpar[1]? = some g1) (hout : zv < 0 ∨ g1 < zv) :
    fiducial c s aStep zv = .ok (false, Int.tmod aStep.replicaNumber 10) := by
  have hg : vecAt s.gpar 1 = .ok g1 := vecAt_of_some h1
  unfold fiducial
  by_cases hz : zv < 0
  · simp [hz]; rfl
  · have h2 : g1 < zv := by tauto
    have h3 : ¬ zv ≤ g1 := not_le.mpr h2
    simp [hz, hg, ok_bind, h2, h3]; rfl

theorem fiducial_noCut (c : Collaborators) (s : Shower) (aStep : G4Step) (zv g1 : ℚ)
    (h1 : s.gpar[1]? = some g1) (hf : s.applyFidCut = false) :
    fiducial c s aStep zv
      = .ok (decide (0 ≤ zv ∧ zv ≤ g1), Int.tmod aStep.replicaNumber 10) := by
  have hg : vecAt s.gpar 1 = .ok g1 := vecAt_of_some h1
  unfold fiducial
  by_cases hz : zv < 0
  · have : ¬ (0 ≤ zv) := not_le.mpr hz
    simp [hz, hf, this]; rfl
  · have h0 : 0 ≤ zv := not_lt.mp hz
    by_cases h2 : g1 < zv
    · have : ¬ (zv ≤ g1) := not_le.mpr h2
      simp [hz, hg, ok_bind, h2, hf, this]
    · have : zv ≤ g1 := not_lt.mp h2
      simp [hz, hg, ok_bind, h2, hf, this, h0]

theorem fiducial_cut (c : Collaborators) (s : Shower) (aStep : G4Step) (zv g0 g1 : ℚ)
    (h0 : s.gpar[0]? = some g0) (h1 : s.gpar[1]? = some g1) (hf : s.applyFidCut = true)
    (hlo : 0 ≤ zv) (hhi : zv ≤ g1) :
    fiducial c s aStep zv
      = .ok (if c.PMTNumber aStep.prePosition ≤ 0 then (false, 1)
          else if c.PMTNumber aStep.prePosition > 24 then
            (if zv > g0 then (true, 2) else (false, 1))
          else (true, 1)) := by
  have hg0 : vecAt s.gpar 0 = .ok g0 := vecAt_of_some h0
  have hg1 : vecAt s.gpar 1 = .ok g1 := vecAt_of_some h1
  have hz : ¬ zv < 0 := not_lt.mpr hlo
  have h2 : ¬ g1 < zv := not_lt.mpr hhi
  unfold fiducial
  simp only [hz, hg1, ok_bind, hf, if_false, gt_iff_lt, h2, decide_False, pure_bind,
    Bool.false_eq_true, Bool.and_self, if_true, hg0]
  split_ifs <;> rfl

theorem buildHits_gated (c : Collaborators) (s : Shower) (eng : RandomEngine) (aStep : G4Step)
    (stepl zv g1 : ℚ) (depth : Int) (h1 : s.gpar[1]? = some g1)
    (hfid : fiducial c s aStep zv = .ok (false, depth)) :
    buildHits c s eng aStep stepl zv = .ok ⟨[], s.cherenkov, eng⟩ := by
  have hg1 : vecAt s.gpar 1 = .ok g1 := vecAt_of_some h1
  unfold buildHits
  simp only [hfid, ok_bind, hg1]
  cases s.applyFidCut <;> simp <;> rfl

theorem buildHits_cut (c : Collaborators) (s : Shower) (eng : RandomEngine) (aStep : G4Step)
    (stepl zv g1 : ℚ) (depth : Int) (h1 : s.gpar[1]? = some g1)
    (hfid : fiducial c s aStep zv = .ok (true, depth)) (hf : s.applyFidCut = true) :
    buildHits c s eng aStep stepl zv
      = .ok ⟨[⟨depth,
              aStep.postGlobalTime
                + c.tShift ⟨aStep.prePosition.x, aStep.prePosition.y, zv⟩ depth s.chkFibre,
              300, 1, aStep.prePosition⟩],
            s.cherenkov, ⟨eng.seq, eng.pos + 2⟩⟩ := by
  have hg1 : vecAt s.gpar 1 = .ok g1 := vecAt_of_some h1
  obtain ⟨hit1, hl⟩ := photonLoop_eq c s (0.5 * g1 - zv - aStep.objectTranslation.z)
    aStep.postGlobalTime (c.tShift ⟨aStep.prePosition.x, aStep.prePosition.y, zv⟩ depth s.chkFibre)
    depth aStep.prePosition [] [] 1 0 c.defaultHit [] eng (by simp [hf])
  unfold buildHits
  simp only [hfid, ok_bind, hg1, hf]
  simp only [Bool.not_true, Bool.false_eq_true, if_false, gt_iff_lt, zero_lt_one, decide_True,
    Bool.and_self, if_true, Int.toNat_one, hl, ok_bind]
  simp [candidate, hf]
  rfl

theorem buildHits_sampled (c : Collaborators) (s : Shower) (eng : RandomEngine) (aStep : G4Step)
    (stepl zv g1 : ℚ) (depth : Int) (h1 : s.gpar[1]? = some g1)
    (hfid : fiducial c s aStep zv = .ok (true, depth)) (hf : s.applyFidCut = false)
    (hm : (computeNPEAt c s eng aStep stepl
      (0.5 * g1 - zv - aStep.objectTranslation.z)).matched) :
    buildHits c s eng aStep stepl zv
      = .ok ⟨(List.range (computeNPEAt c s eng aStep stepl
                (0.5 * g1 - zv - aStep.objectTranslation.z)).npe.toNat).filterMap
              (fun k => candidate c s (0.5 * g1 - zv - aStep.objectTranslation.z)
                aStep.postGlobalTime
                (c.tShift ⟨aStep.prePosition.x, aStep.prePosition.y, zv⟩ depth s.chkFibre)
                depth aStep.prePosition
                (computeNPEAt c s eng aStep stepl
                  (0.5 * g1 - zv - aStep.objectTranslation.z)).cherenkov.wlv
                (computeNPEAt c s eng aStep stepl
                  (0.5 * g1 - zv - aStep.objectTranslation.z)).cherenkov.momZ
                (computeNPEAt c s eng aStep stepl
                  (0.5 * g1 - zv - aStep.objectTranslation.z)).engine k k),
            (computeNPEAt c s eng aStep stepl
              (0.5 * g1 - zv - aStep.objectTranslation.z)).cherenkov,
            ⟨(computeNPEAt c s eng aStep stepl
                (0.5 * g1 - zv - aStep.objectTranslation.z)).engine.seq,
             (computeNPEAt c s eng aStep stepl
                (0.5 * g1 - zv - aStep.objectTranslation.z)).engine.pos
               + 2 * (computeNPEAt c s eng aStep stepl
                (0.5 * g1 - zv - aStep.objectTranslation.z)).npe.toNat⟩⟩ := by
  have hg1 : vecAt s.gpar 1 = .ok g1 := vecAt_of_some h1
  generalize hr : computeNPEAt c s eng aStep stepl
    (0.5 * g1 - zv - aStep.objectTranslation.z) = r at hm ⊢
  obtain ⟨hit1, hl⟩ := photonLoop_eq c s (0.5 * g1 - zv - aStep.objectTranslation.z)
    aStep.postGlobalTime (c.tShift ⟨aStep.prePosition.x, aStep.prePosition.y, zv⟩ depth s.chkFibre)
    depth aStep.prePosition r.cherenkov.wlv r.cherenkov.momZ r.npe.toNat 0 c.defaultHit []
    r.engine (by intro _; simpa [NPEResult.matched] using hm)
  unfold buildHits
  simp only [hfid, ok_bind, hg1, hf, hr]
  by_cases hn : r.npe > 0
  · simp only [Bool.not_false, if_true, hn, decide_True, Bool.and_self, hl, ok_bind]
    simp
    rfl
  · have h0 : r.npe.toNat = 0 := by
      have : r.npe ≤ 0 := not_lt.mp hn
      simpa using this
    simp [hn, h0]
    rfl

theorem chargedStepLength_eq_zero (aStep : G4Step) :
    chargedStepLength aStep = 0 ↔ aStep.pdgCharge = 0 ∨ aStep.stepLength = 0 := by
  unfold chargedStepLength
  by_cases h : aStep.pdgCharge = 0 <;> simp [h]

theorem call_rejected (c : Collaborators) (s : Shower) (eng : RandomEngine) (aStep : G4Step)
    (o : Overload) (h : edepOf aStep o = 0 ∨ chargedStepLength aStep = 0) :
    call c s eng aStep o = .ok ⟨[], s.cherenkov, eng⟩ := by
  cases o <;>
    simp only [call, getHits, getHitsOffset, getHitsLibrary, edepOf] at h ⊢ <;>
    rw [if_pos h] <;> rfl

theorem call_sampled (c : Collaborators) (s : Shower) (eng : RandomEngine) (aStep : G4Step)
    (o : Overload) (zv : ℚ) (ho : o.sampled = true) (hzv : zvOf s.gpar aStep o = .ok zv)
    (hpass : ¬ (edepOf aStep o = 0 ∨ chargedStepLength aStep = 0)) :
    call c s eng aStep o = buildHits c s eng aStep (chargedStepLength aStep) zv := by
  cases o with
  | weighted weight =>
    simp only [call, getHits, edepOf] at hpass ⊢
    rw [if_neg hpass]
    simp only [zvOf] at hzv
    cases hg : vecAt s.gpar 4 with
    | error e => simp [hg, error_bind] at hzv
    | ok g4 =>
      simp only [hg, ok_bind] at hzv ⊢
      cases hzv
      rfl
  | offset f zoffset =>
    simp only [call, getHitsOffset, edepOf] at hpass ⊢
    rw [if_neg hpass]
    simp only [zvOf] at hzv
    cases hg : vecAt s.gpar 1 with
    | error e => simp [hg, error_bind] at hzv
    | ok g1 =>
      simp only [hg, ok_bind] at hzv ⊢
      cases hzv
      rfl
  | library f => simp [Overload.sampled] at ho

theorem zvOf_library_ok {gpar : List ℚ} {aStep : G4Step} {f : Bool} {zv : ℚ}
    (hzv : zvOf gpar aStep (.library f) = .ok zv) :
    ∃ g4 g1, vecAt gpar 4 = .ok g4 ∧ vecAt gpar 1 = .ok g1 ∧
      zv = |aStep.prePosition.z| - g4 - 0.5 * g1 := by
  simp only [zvOf] at hzv
  cases h4 : vecAt gpar 4 with
  | error e => simp [h4, error_bind] at hzv
  | ok g4 =>
    cases h1 : vecAt gpar 1 with
    | error e => simp [h4, h1, ok_bind, error_bind] at hzv
    | ok g1 =>
      simp only [h4, h1, ok_bind] at hzv
      cases hzv
      exact ⟨g4, g1, rfl, rfl, rfl⟩

theorem call_library (c : Collaborators) (s : Shower) (eng : RandomEngine) (aStep : G4Step)
    (f : Bool) (zv g1 : ℚ) (okb : Bool) (depth : Int)
    (hpass : ¬ (edepOf aStep (.library f) = 0 ∨ chargedStepLength aStep = 0))
    (hzv : zvOf s.gpar aStep (.library f) = .ok zv) (h1 : s.gpar[1]? = some g1)
    (hfid : fiducial c s aStep zv = .ok (okb, depth))
    (hm : okb = true → (computeNPEAt c s eng aStep (chargedStepLength aStep)
      (0.5 * g1 - zv - aStep.objectTranslation.z)).matched) :
    call c s eng aStep (.library f)
      = .ok (if okb then
          ⟨(List.range (computeNPEAt c s eng aStep (chargedStepLength aStep)
              (0.5 * g1 - zv - aStep.objectTranslation.z)).npe.toNat).map (fun i =>
              (⟨c.defaultHit.depth,
                aStep.postGlobalTime
                  + c.tShift ⟨aStep.prePosition.x, aStep.prePosition.y, zv⟩ depth s.chkFibre,
                (computeNPEAt c s eng aStep (chargedStepLength aStep)
                  (0.5 * g1 - zv - aStep.objectTranslation.z)).cherenkov.wlv.getD i 0,
                (computeNPEAt c s eng aStep (chargedStepLength aStep)
                  (0.5 * g1 - zv - aStep.objectTranslation.z)).cherenkov.momZ.getD i 0,
                aStep.prePosition⟩ : Hit)),
            (computeNPEAt c s eng aStep (chargedStepLength aStep)
              (0.5 * g1 - zv - aStep.objectTranslation.z)).cherenkov,
            (computeNPEAt c s eng aStep (chargedStepLength aStep)
              (0.5 * g1 - zv - aStep.objectTranslation.z)).engine⟩
        else ⟨[], s.cherenkov, eng⟩) := by
  obtain ⟨g4, g1', h4, h1', hz⟩ := zvOf_library_ok hzv
  have hg1 : vecAt s.gpar 1 = .ok g1 := vecAt_of_some h1
  rw [hg1] at h1'
  cases h1'
  generalize hr : computeNPEAt c s eng aStep (chargedStepLength aStep)
    (0.5 * g1 - zv - aStep.objectTranslation.z) = r at hm ⊢
  simp only [call, getHitsLibrary, edepOf] at hpass ⊢
  rw [if_neg hpass]
  simp only [h4, hg1, ok_bind, ← hz, hfid]
  cases okb with
  | false =>
    obtain ⟨hit1, hl⟩ := libraryLoop_eq aStep.postGlobalTime
      (c.tShift ⟨aStep.prePosition.x, aStep.prePosition.y, zv⟩ depth s.chkFibre)
      aStep.prePosition s.cherenkov.wlv s.cherenkov.momZ 0 0 c.defaultHit [] (by simp) (by simp)
    simp only [Bool.false_eq_true, if_false, Int.toNat_zero, hl, ok_bind]
    rfl
  | true =>
    have hm' := hm rfl
    obtain ⟨hit1, hl⟩ := libraryLoop_eq aStep.postGlobalTime
      (c.tShift ⟨aStep.prePosition.x, aStep.prePosition.y, zv⟩ depth s.chkFibre)
      aStep.prePosition r.cherenkov.wlv r.cherenkov.momZ r.npe.toNat 0 c.defaultHit []
      (by simpa using hm'.1) (by simpa using hm'.2)
    simp only [if_true, hr, hl, ok_bind]
    simp
    rfl

theorem filterMap_ite_eq_map_filter {α β : Type} (p : α → Bool) (f : α → β) (l : List α) :
    l.filterMap (fun a => if p a = true then some (f a) else none) = (l.filter p).map f := by
  induction l with
  | nil => rfl
  | cons a l ih =>
    cases h : p a <;> simp [List.filterMap_cons, List.filter_cons, h, ih]

theorem candidate_unconditional (c : Collaborators) (s : Shower) (zFibre tSlice time : ℚ)
    (depth : Int) (globalPos : G4ThreeVector) (wavelength momz : List ℚ) (eng : RandomEngine)
    (j k : Nat) (h : s.applyFidCut = true ∨ s.chkFibre < 0) :
    candidate c s zFibre tSlice time depth globalPos wavelength momz eng j k
      = some ⟨depth, tSlice + time, if s.applyFidCut then 300 else wavelength.getD j 0,
          if s.applyFidCut then 1 else momz.getD j 0, globalPos⟩ := by
  unfold candidate
  rcases h with h | h
  · simp [h]
  · simp [h]

theorem candidate_sampling (c : Collaborators) (s : Shower) (zFibre tSlice time : ℚ)
    (depth : Int) (globalPos : G4ThreeVector) (wavelength momz : List ℚ) (eng : RandomEngine)
    (j k : Nat) (hf : s.applyFidCut = false) (hchk : 0 ≤ s.chkFibre) :
    candidate c s zFibre tSlice time depth globalPos wavelength momz eng j k
      = if eng.seq (eng.pos + 2 * k) ≤ c.exp (-(c.attLength (wavelength.getD j 0)) * zFibre)
            ∧ eng.seq (eng.pos + 2 * k + 1) ≤ s.probMax then
          some ⟨depth, tSlice + time, wavelength.getD j 0, momz.getD j 0, globalPos⟩
        else none := by
  have hn : ¬ s.chkFibre < 0 := not_lt.mpr hchk
  unfold candidate
  simp [hf, hn]

theorem length_filterMap_some {α β : Type} (g : α → β) (l : List α) :
    (l.filterMap (fun a => some (g a))).length = l.length := by
  induction l with
  | nil => rfl
  | cons a l ih => simp [List.filterMap_cons, ih]

theorem candidate_filter (c : Collaborators) (s : Shower) (zFibre tSlice time : ℚ)
    (depth : Int) (globalPos : G4ThreeVector) (wavelength momz : List ℚ) (eng : RandomEngine)
    (hf : s.applyFidCut = false) (l : List Nat) :
    ∃ p : Nat → Bool,
      l.filterMap (fun k =>
          candidate c s zFibre tSlice time depth globalPos wavelength momz eng k k)
        = (l.filter p).map (fun k =>
            (⟨depth, tSlice + time, wavelength.getD k 0, momz.getD k 0, globalPos⟩ : Hit)) := by
  refine ⟨fun k => decide (s.chkFibre < 0) ||
      (decide (eng.seq (eng.pos + 2 * k)
          ≤ c.exp (-(c.attLength (wavelength.getD k 0)) * zFibre)) &&
        decide (eng.seq (eng.pos + 2 * k + 1) ≤ s.probMax)), ?_⟩
  rw [← filterMap_ite_eq_map_filter]
  congr 1
  funext k
  simp only [candidate, hf, Bool.false_or, Bool.false_eq_true, if_false]

theorem candidate_position_time (c : Collaborators) (s : Shower) (zFibre tSlice time : ℚ)
    (depth : Int) (globalPos : G4ThreeVector) (wavelength momz : List ℚ) (eng : RandomEngine)
    (j k : Nat) (h : Hit)
    (hc : candidate c s zFibre tSlice time depth globalPos wavelength momz eng j k = some h) :
    h.position = globalPos ∧ h.time = tSlice + time ∧ h.depth = depth := by
  simp only [candidate, Option.ite_none_right_eq_some, Option.some.injEq] at hc
  obtain ⟨_, rfl⟩ := hc
  exact ⟨rfl, rfl, rfl⟩

theorem buildHits_position_time (c : Collaborators) (s : Shower) (eng : RandomEngine)
    (aStep : G4Step) (stepl zv g1 : ℚ) (okb : Bool) (depth : Int)
    (h1 : s.gpar[1]? = some g1)
    (hfid : fiducial c s aStep zv = .ok (okb, depth))
    (hm : okb = true → s.applyFidCut = false →
      (computeNPEAt c s eng aStep stepl (0.5 * g1 - zv - aStep.objectTranslation.z)).matched) :
    ∃ out, buildHits c s eng aStep stepl zv = .ok out ∧
      ∀ h ∈ out.hits, h.position = aStep.prePosition ∧
        h.time = aStep.postGlobalTime
          + c.tShift ⟨aStep.prePosition.x, aStep.prePosition.y, zv⟩ depth s.chkFibre ∧
        h.depth = depth := by
  cases okb with
  | false =>
    rw [buildHits_gated c s eng aStep stepl zv g1 depth h1 hfid]
    exact ⟨_, rfl, by simp⟩
  | true =>
    cases hf : s.applyFidCut with
    | true =>
      rw [buildHits_cut c s eng aStep stepl zv g1 depth h1 hfid hf]
      refine ⟨_, rfl, ?_⟩
      intro h hh
      simp only [List.mem_singleton] at hh
      subst hh
      exact ⟨rfl, rfl, rfl⟩
    | false =>
      rw [buildHits_sampled c s eng aStep stepl zv g1 depth h1 hfid hf (hm rfl hf)]
      refine ⟨_, rfl, ?_⟩
      intro h hh
      obtain ⟨k, _, hk⟩ := List.mem_filterMap.mp hh
      exact candidate_position_time _ _ _ _ _ _ _ _ _ _ _ _ _ hk

theorem fiducial_total (c : Collaborators) (s : Shower) (aStep : G4Step) (zv g0 g1 : ℚ)
    (h0 : s.gpar[0]? = some g0) (h1 : s.gpar[1]? = some g1) :
    ∃ okb depth, fiducial c s aStep zv = .ok (okb, depth) := by
  cases hf : s.applyFidCut with
  | false => exact ⟨_, _, fiducial_noCut c s aStep zv g1 h1 hf⟩
  | true =>
    by_cases hin : 0 ≤ zv ∧ zv ≤ g1
    · exact ⟨_, _, fiducial_cut c s aStep zv g0 g1 h0 h1 hf hin.1 hin.2⟩
    · refine ⟨_, _, fiducial_outside c s aStep zv g1 h1 ?_⟩
      by_cases hz : zv < 0
      · exact Or.inl hz
      · exact Or.inr (not_le.mp (fun h => hin ⟨not_lt.mp hz, h⟩))

theorem fiducial_below (c : Collaborators) (s : Shower) (aStep : G4Step) (zv : ℚ)
    (hz : zv < 0) :
    fiducial c s aStep zv = .ok (false, Int.tmod aStep.replicaNumber 10) := by
  unfold fiducial
  simp [hz]
  rfl

theorem fiducial_depth (c : Collaborators) (s : Shower) (aStep : G4Step) (zv : ℚ)
    (okb : Bool) (depth : Int) (hfid : fiducial c s aStep zv = .ok (okb, depth)) :
    (s.applyFidCut = false → depth = Int.tmod aStep.replicaNumber 10) ∧
    (s.applyFidCut = true → okb = true → depth = 1 ∨ depth = 2) := by
  by_cases hz : zv < 0
  · rw [fiducial_below c s aStep zv hz] at hfid
    cases hfid
    exact ⟨fun _ => rfl, fun _ h => by cases h⟩
  · cases hv : vecAt s.gpar 1 with
    | error e =>
      unfold fiducial at hfid
      simp [hz, hv, error_bind] at hfid
    | ok g1 =>
      have h1 : s.gpar[1]? = some g1 := vecAt_ok_iff.mp hv
      have hlen : 1 < s.gpar.length := (List.getElem?_eq_some.mp h1).1
      have h0 : s.gpar[0]? = some (s.gpar.getD 0 0) := by
        simp [List.getD, List.getElem?_eq_getElem (show 0 < s.gpar.length by omega)]
      cases hf : s.applyFidCut with
      | false =>
        rw [fiducial_noCut c s aStep zv g1 h1 hf] at hfid
        cases hfid
        exact ⟨fun _ => rfl, fun h => by cases h⟩
      | true =>
        refine ⟨fun h => (by cases h), fun _ hok => ?_⟩
        subst hok
        by_cases hhi : zv ≤ g1
        · rw [fiducial_cut c s aStep zv _ g1 h0 h1 hf (not_lt.mp hz) hhi] at hfid
          split_ifs at hfid <;> cases hfid
          · exact Or.inr rfl
          · exact Or.inl rfl
        · rw [fiducial_outside c s aStep zv g1 h1 (Or.inr (not_le.mp hhi))] at hfid
          cases hfid

theorem gpar_entry (s : Shower) (i : Nat) (hi : i < s.gpar.length) :
    s.gpar[i]? = some (s.gpar.getD i 0) := by
  simp [List.getD, List.getElem?_eq_getElem hi]

theorem zvOf_total (gpar : List ℚ) (aStep : G4Step) (o : Overload) (g1 g4 : ℚ)
    (h1 : gpar[1]? = some g1) (h4 : gpar[4]? = some g4) :
    ∃ zv, zvOf gpar aStep o = .ok zv := by
  have e1 : vecAt gpar 1 = .ok g1 := vecAt_of_some h1
  have e4 : vecAt gpar 4 = .ok g4 := vecAt_of_some h4
  cases o <;> simp only [zvOf, e1, e4, ok_bind] <;> exact ⟨_, rfl⟩

theorem zvOf_weighted (gpar : List ℚ) (aStep : G4Step) (w g4 : ℚ) (h4 : gpar[4]? = some g4) :
    zvOf gpar aStep (.weighted w) = .ok (|aStep.prePosition.z| - g4) := by
  simp only [zvOf, vecAt_of_some h4, ok_bind]
  rfl

theorem zvOf_offset (gpar : List ℚ) (aStep : G4Step) (f : Bool) (zoffset g1 : ℚ)
    (h1 : gpar[1]? = some g1) :
    zvOf gpar aStep (.offset f zoffset) = .ok (g1 - (|aStep.prePosition.z| - zoffset)) := by
  simp only [zvOf, vecAt_of_some h1, ok_bind]
  rfl

theorem computeNPEAt_demo (s : Shower) (eng : RandomEngine) (aStep : G4Step)
    (stepl zFibre : ℚ) :
    computeNPEAt demoCollaborators s eng aStep stepl zFibre
      = ⟨3, ⟨[300, 400, 500], [1, 2, 3]⟩, eng⟩ := rfl

theorem call_faults_without_gpar4 (c : Collaborators) (s : Shower) (eng : RandomEngine)
    (aStep : G4Step) (o : Overload) (hshort : s.gpar.length < 5)
    (ho : ∀ f z, o ≠ .offset f z)
    (hpass : ¬ (edepOf aStep o = 0 ∨ chargedStepLength aStep = 0)) :
    call c s eng aStep o = .error .outOfRange := by
  have h4 : vecAt s.gpar 4 = .error .outOfRange := by
    have : s.gpar[4]? = none := List.getElem?_eq_none (by omega)
    simp [vecAt, this]
  cases o with
  | weighted w =>
    simp only [call, getHits, edepOf] at hpass ⊢
    rw [if_neg hpass]
    simp only [h4, error_bind]
  | offset f z => exact absurd rfl (ho f z)
  | library f =>
    simp only [call, getHitsLibrary, edepOf] at hpass ⊢
    rw [if_neg hpass]
    simp only [h4, error_bind]

/-! ## Claims -/

/-- C1. A step whose deposited energy is zero (for `getHits(aStep, weight)`: whose
weight times deposited energy is zero), whose step length is zero, or whose
particle has zero charge makes each of the three overloads return the empty
vector, for every geometry (even an empty `gpar`), configuration, collaborator
and random engine; the yield model and the random engine are left untouched. -/
theorem getHits_empty_of_no_light (c : Collaborators) (s : Shower) (eng : RandomEngine)
    (aStep : G4Step) (o : Overload)
    (h : edepOf aStep o = 0 ∨ aStep.stepLength = 0 ∨ aStep.pdgCharge = 0) :
    call c s eng aStep o = .ok ⟨[], s.cherenkov, eng⟩ := by
  apply call_rejected
  rcases h with h | h | h
  · exact Or.inl h
  · exact Or.inr ((chargedStepLength_eq_zero aStep).mpr (Or.inr h))
  · exact Or.inr ((chargedStepLength_eq_zero aStep).mpr (Or.inl h))

/-- Witness for C1: a neutral particle, with an empty `gpar`, in the library
overload. -/
theorem getHits_empty_of_no_light_witness :
    call demoCollaborators { demoShower with gpar := [] } demoEngine
        { demoStep with pdgCharge := 0 } (.library true)
      = .ok ⟨[], demoShower.cherenkov, demoEngine⟩ :=
  getHits_empty_of_no_light demoCollaborators { demoShower with gpar := [] } demoEngine
    { demoStep with pdgCharge := 0 } (.library true) (Or.inr (Or.inr rfl))

/-- C2. Modes A and B, for a step that passes the early reject and the gate
(`fiducial` returns `ok = true`): when `chkFibre < 0` or `applyFidCut` is set, the
call returns as many hits as the loop has candidate photons, for every random
engine: one when `applyFidCut` is set, and otherwise the count `npe ≥ 0` returned
by the yield model (whose vectors hold an entry for each of these photons). -/
theorem hit_count_eq_npe_without_sampling (c : Collaborators) (s : Shower) (eng : RandomEngine)
    (aStep : G4Step) (o : Overload) (zv g1 zFibre : ℚ) (depth : Int) (r : NPEResult)
    (ho : o.sampled = true)
    (hpass : ¬ (edepOf aStep o = 0 ∨ chargedStepLength aStep = 0))
    (hzv : zvOf s.gpar aStep o = .ok zv)
    (h1 : s.gpar[1]? = some g1)
    (hok : fiducial c s aStep zv = .ok (true, depth))
    (hzF : zFibre = 0.5 * g1 - zv - aStep.objectTranslation.z)
    (hr : r = computeNPEAt c s eng aStep (chargedStepLength aStep) zFibre)
    (hmode : s.chkFibre < 0 ∨ s.applyFidCut = true)
    (hnpe : s.applyFidCut = false → 0 ≤ r.npe ∧ r.matched) :
    ∃ out, call c s eng aStep o = .ok out ∧
      (out.hits.length : Int) = if s.applyFidCut then 1 else r.npe := by
  rw [call_sampled c s eng aStep o zv ho hzv hpass]
  subst hzF
  cases hf : s.applyFidCut with
  | true =>
    rw [buildHits_cut c s eng aStep _ zv g1 depth h1 hok hf]
    exact ⟨_, rfl, by simp⟩
  | false =>
    obtain ⟨h0, hm⟩ := hnpe hf
    rw [hr] at hm
    rw [buildHits_sampled c s eng aStep _ zv g1 depth h1 hok hf hm]
    refine ⟨_, rfl, ?_⟩
    have hc : s.chkFibre < 0 := by
      rcases hmode with h | h
      · exact h
      · rw [hf] at h; cases h
    simp only [candidate_unconditional _ _ _ _ _ _ _ _ _ _ _ _ (Or.inr hc)]
    rw [← hr, length_filterMap_some, List.length_range]
    exact Int.toNat_of_nonneg h0

/-- Witness for C2: sampling switched off (`chkFibre = -1`), three photons, three
hits. -/
theorem hit_count_eq_npe_without_sampling_witness :
    ∃ out, call demoCollaborators { demoShower with chkFibre := -1 } demoEngine demoStep
        (.weighted 1) = .ok out ∧ (out.hits.length : Int) = 3 :=
  hit_count_eq_npe_without_sampling demoCollaborators { demoShower with chkFibre := -1 }
    demoEngine demoStep (.weighted 1) 10 100 40 1 ⟨3, ⟨[300, 400, 500], [1, 2, 3]⟩, demoEngine⟩
    rfl
    (by simp [edepOf, chargedStepLength, demoStep])
    (by simp [zvOf, vecAt, demoShower, demoStep, ok_bind]; norm_num)
    rfl
    (by
      rw [fiducial_noCut demoCollaborators { demoShower with chkFibre := -1 } demoStep 10 100
        rfl rfl]
      simp [demoStep]
      exact ⟨by norm_num, by decide⟩)
    (by norm_num [demoStep])
    rfl
    (Or.inl (by decide))
    (fun _ => ⟨by decide, by simp [NPEResult.matched]⟩)

/-- C4. Modes A and B with `applyFidCut` false, for every step: the
(wavelength, momentum) pairs of the returned hits are those of the yield model's
photons at a strictly increasing list of indices below `npe`, so the hits are a
subsequence of the photons in emission order and there are at most `npe` of
them. -/
theorem hits_subsequence_of_photons (c : Collaborators) (s : Shower) (eng : RandomEngine)
    (aStep : G4Step) (o : Overload) (zv g1 zFibre : ℚ) (r : NPEResult)
    (ho : o.sampled = true)
    (hzv : zvOf s.gpar aStep o = .ok zv)
    (h1 : s.gpar[1]? = some g1)
    (hzF : zFibre = 0.5 * g1 - zv - aStep.objectTranslation.z)
    (hr : r = computeNPEAt c s eng aStep (chargedStepLength aStep) zFibre)
    (hf : s.applyFidCut = false)
    (hnpe : 0 ≤ r.npe) (hm : r.matched) :
    ∃ (out : Outcome) (idx : List Nat), call c s eng aStep o = .ok out ∧
      idx.Pairwise (· < ·) ∧
      (∀ i ∈ idx, (i : Int) < r.npe) ∧
      out.hits.map (fun h => (h.wavelength, h.momentum))
        = idx.map (fun i => (r.cherenkov.wlv.getD i 0, r.cherenkov.momZ.getD i 0)) ∧
      (out.hits.length : Int) ≤ r.npe := by
  by_cases hpass : edepOf aStep o = 0 ∨ chargedStepLength aStep = 0
  · exact ⟨_, [], call_rejected c s eng aStep o hpass, List.Pairwise.nil, by simp, rfl,
      by simpa using hnpe⟩
  · rw [call_sampled c s eng aStep o zv ho hzv hpass]
    have hfid := fiducial_noCut c s aStep zv g1 h1 hf
    cases hd : decide (0 ≤ zv ∧ zv ≤ g1) with
    | false =>
      rw [hd] at hfid
      exact ⟨_, [], buildHits_gated c s eng aStep _ zv g1 _ h1 hfid, List.Pairwise.nil,
        by simp, rfl, by simpa using hnpe⟩
    | true =>
      rw [hd] at hfid
      subst hzF
      rw [hr] at hm
      rw [buildHits_sampled c s eng aStep _ zv g1 _ h1 hfid hf hm, ← hr]
      obtain ⟨p, hp⟩ := candidate_filter c s (0.5 * g1 - zv - aStep.objectTranslation.z)
        aStep.postGlobalTime
        (c.tShift ⟨aStep.prePosition.x, aStep.prePosition.y, zv⟩
          (Int.tmod aStep.replicaNumber 10) s.chkFibre)
        (Int.tmod aStep.replicaNumber 10) aStep.prePosition r.cherenkov.wlv r.cherenkov.momZ
        r.engine hf (List.range r.npe.toNat)
      refine ⟨_, (List.range r.npe.toNat).filter p, rfl, ?_, ?_, ?_, ?_⟩
      · exact (List.pairwise_lt_range _).sublist (List.filter_sublist _)
      · intro i hi
        have := (List.mem_range.mp (List.mem_filter.mp hi).1)
        omega
      · simp only [hp, List.map_map]
        rfl
      · simp only [hp, List.length_map]
        have := List.length_filter_le p (List.range r.npe.toNat)
        simp only [List.length_range] at this
        omega

/-- Witness for C4: in the offset overload with `zoffset = 20` (so `zv = 90`). -/
theorem hits_subsequence_of_photons_witness :
    ∃ (out : Outcome) (idx : List Nat),
      call demoCollaborators demoShower demoEngine demoStep (.offset true 20) = .ok out ∧
      idx.Pairwise (· < ·) ∧
      (∀ i ∈ idx, (i : Int) < 3) ∧
      out.hits.map (fun h => (h.wavelength, h.momentum))
        = idx.map (fun i => ([300, 400, 500].getD i 0, [1, 2, 3].getD i 0)) ∧
      (out.hits.length : Int) ≤ 3 :=
  hits_subsequence_of_photons demoCollaborators demoShower demoEngine demoStep (.offset true 20)
    90 100 (-40) ⟨3, ⟨[300, 400, 500], [1, 2, 3]⟩, demoEngine⟩
    rfl
    (by simp [zvOf, vecAt, demoShower, demoStep, ok_bind]; norm_num)
    rfl
    (by norm_num [demoStep])
    rfl rfl (by decide) (by simp [NPEResult.matched])

/-- C5. Modes A and B with `applyFidCut` false, `chkFibre < 0` and a yield of
`npe > 0` photons: a step that passes the early reject gives a non-empty result
exactly when `0 ≤ zv ≤ gpar[1]`, both ends included. -/
theorem gate_inclusive_at_both_ends (c : Collaborators) (s : Shower) (eng : RandomEngine)
    (aStep : G4Step) (o : Overload) (zv g1 zFibre : ℚ) (r : NPEResult)
    (ho : o.sampled = true)
    (hpass : ¬ (edepOf aStep o = 0 ∨ chargedStepLength aStep = 0))
    (hzv : zvOf s.gpar aStep o = .ok zv)
    (h1 : s.gpar[1]? = some g1)
    (hzF : zFibre = 0.5 * g1 - zv - aStep.objectTranslation.z)
    (hr : r = computeNPEAt c s eng aStep (chargedStepLength aStep) zFibre)
    (hf : s.applyFidCut = false) (hchk : s.chkFibre < 0)
    (hnpe : 0 < r.npe) (hm : r.matched) :
    ∃ out, call c s eng aStep o = .ok out ∧ (out.hits ≠ [] ↔ 0 ≤ zv ∧ zv ≤ g1) := by
  rw [call_sampled c s eng aStep o zv ho hzv hpass]
  have hfid := fiducial_noCut c s aStep zv g1 h1 hf
  by_cases hin : 0 ≤ zv ∧ zv ≤ g1
  · rw [decide_eq_true hin] at hfid
    subst hzF
    rw [hr] at hm
    rw [buildHits_sampled c s eng aStep _ zv g1 _ h1 hfid hf hm, ← hr]
    refine ⟨_, rfl, ?_⟩
    simp only [candidate_unconditional _ _ _ _ _ _ _ _ _ _ _ _ (Or.inr hchk)]
    refine ⟨fun _ => hin, fun _ hnil => ?_⟩
    have hlen := congrArg List.length hnil
    rw [length_filterMap_some, List.length_range] at hlen
    simp only [List.length_nil] at hlen
    omega
  · rw [decide_eq_false hin] at hfid
    rw [buildHits_gated c s eng aStep _ zv g1 _ h1 hfid]
    exact ⟨_, rfl, by simp [hin]⟩

/-- Witness for C5: a step at `|z| = 120`, that is at `zv = gpar[1] = 100`, the
upper end of the gate. -/
theorem gate_inclusive_at_both_ends_witness :
    ∃ out, call demoCollaborators { demoShower with chkFibre := -1 } demoEngine
        { demoStep with prePosition := ⟨1, 2, 120⟩ } (.weighted 1) = .ok out ∧
      (out.hits ≠ [] ↔ (0 : ℚ) ≤ 100 ∧ (100 : ℚ) ≤ 100) :=
  gate_inclusive_at_both_ends demoCollaborators { demoShower with chkFibre := -1 } demoEngine
    { demoStep with prePosition := ⟨1, 2, 120⟩ } (.weighted 1) 100 100 (-50)
    ⟨3, ⟨[300, 400, 500], [1, 2, 3]⟩, demoEngine⟩
    rfl
    (by simp [edepOf, chargedStepLength, demoStep])
    (by simp [zvOf, vecAt, demoShower, demoStep, ok_bind]; norm_num)
    rfl
    (by norm_num [demoStep])
    rfl rfl (by decide) (by decide) (by simp [NPEResult.matched])

/-- C6. For each of the three overloads, a step whose `zv` (as that overload
computes it) is below 0 or above `gpar[1]` gives the empty vector, for every
configuration, fiducial channel, yield model and random engine; nothing is drawn
and the yield model is not called. -/
theorem getHits_empty_outside_fibre (c : Collaborators) (s : Shower) (eng : RandomEngine)
    (aStep : G4Step) (o : Overload) (zv g1 : ℚ)
    (hzv : zvOf s.gpar aStep o = .ok zv)
    (h1 : s.gpar[1]? = some g1)
    (hout : zv < 0 ∨ g1 < zv) :
    call c s eng aStep o = .ok ⟨[], s.cherenkov, eng⟩ := by
  by_cases hpass : edepOf aStep o = 0 ∨ chargedStepLength aStep = 0
  · exact call_rejected c s eng aStep o hpass
  · have hfid := fiducial_outside c s aStep zv g1 h1 hout
    cases o with
    | weighted w =>
      rw [call_sampled c s eng aStep (.weighted w) zv rfl hzv hpass]
      exact buildHits_gated c s eng aStep _ zv g1 _ h1 hfid
    | offset f z =>
      rw [call_sampled c s eng aStep (.offset f z) zv rfl hzv hpass]
      exact buildHits_gated c s eng aStep _ zv g1 _ h1 hfid
    | library f =>
      rw [call_library c s eng aStep f zv g1 false _ hpass hzv h1 hfid (by simp)]
      rfl

/-- Witness for C6: the offset overload with `zoffset = 200`, so
`zv = 100 - (30 - 200) = 270 > gpar[1]`. -/
theorem getHits_empty_outside_fibre_witness :
    call demoCollaborators demoShower demoEngine demoStep (.offset true 200)
      = .ok ⟨[], demoShower.cherenkov, demoEngine⟩ :=
  getHits_empty_outside_fibre demoCollaborators demoShower demoEngine demoStep
    (.offset true 200) 270 100
    (by simp [zvOf, vecAt, demoShower, demoStep, ok_bind]; norm_num)
    rfl
    (Or.inr (by norm_num))

/-- C7. Modes A and B with `applyFidCut` set, for a step that passes the early
reject with `0 ≤ zv ≤ gpar[1]`: the result is empty exactly when the fiducial
channel is `≤ 0`, or is `> 24` with `zv ≤ gpar[0]`; and every returned hit has
depth 2 when the channel is `> 24` and depth 1 otherwise. -/
theorem fiducial_cut_outcome (c : Collaborators) (s : Shower) (eng : RandomEngine)
    (aStep : G4Step) (o : Overload) (zv g0 g1 : ℚ)
    (ho : o.sampled = true)
    (hpass : ¬ (edepOf aStep o = 0 ∨ chargedStepLength aStep = 0))
    (hzv : zvOf s.gpar aStep o = .ok zv)
    (h0 : s.gpar[0]? = some g0) (h1 : s.gpar[1]? = some g1)
    (hf : s.applyFidCut = true)
    (hlo : 0 ≤ zv) (hhi : zv ≤ g1) :
    ∃ out, call c s eng aStep o = .ok out ∧
      (out.hits = [] ↔
        c.PMTNumber aStep.prePosition ≤ 0 ∨ (c.PMTNumber aStep.prePosition > 24 ∧ zv ≤ g0)) ∧
      (∀ h ∈ out.hits, h.depth = if c.PMTNumber aStep.prePosition > 24 then 2 else 1) := by
  rw [call_sampled c s eng aStep o zv ho hzv hpass]
  have hfid := fiducial_cut c s aStep zv g0 g1 h0 h1 hf hlo hhi
  by_cases hn : c.PMTNumber aStep.prePosition ≤ 0
  · rw [if_pos hn] at hfid
    rw [buildHits_gated c s eng aStep _ zv g1 _ h1 hfid]
    exact ⟨_, rfl, by simp [hn], by simp⟩
  · rw [if_neg hn] at hfid
    by_cases hs : c.PMTNumber aStep.prePosition > 24
    · rw [if_pos hs] at hfid
      by_cases hz : zv > g0
      · rw [if_pos hz] at hfid
        rw [buildHits_cut c s eng aStep _ zv g1 _ h1 hfid hf]
        have hz2 : ¬ zv ≤ g0 := not_le.mpr hz
        exact ⟨_, rfl, by simp [hn, hz2], by simp [hs]⟩
      · rw [if_neg hz] at hfid
        rw [buildHits_gated c s eng aStep _ zv g1 _ h1 hfid]
        have hz2 : zv ≤ g0 := not_lt.mp hz
        exact ⟨_, rfl, by simp [hs, hz2], by simp⟩
    · rw [if_neg hs] at hfid
      rw [buildHits_cut c s eng aStep _ zv g1 _ h1 hfid hf]
      exact ⟨_, rfl, by simp [hn, hs], by simp [hs]⟩

/-- Witness for C7: channel 30 (a short fibre) at `zv = 10 ≤ gpar[0] = 50`. -/
theorem fiducial_cut_outcome_witness :
    ∃ out, call demoCollaborators { demoShower with applyFidCut := true } demoEngine demoStep
        (.weighted 1) = .ok out ∧
      (out.hits = [] ↔ (30 : Int) ≤ 0 ∨ ((30 : Int) > 24 ∧ (10 : ℚ) ≤ 50)) ∧
      (∀ h ∈ out.hits, h.depth = if (30 : Int) > 24 then 2 else 1) :=
  fiducial_cut_outcome demoCollaborators { demoShower with applyFidCut := true } demoEngine
    demoStep (.weighted 1) 10 50 100
    rfl
    (by simp [edepOf, chargedStepLength, demoStep])
    (by simp [zvOf, vecAt, demoShower, demoStep, ok_bind]; norm_num)
    rfl rfl rfl (by norm_num) (by norm_num)

/-- C8. Modes A and B with `applyFidCut` set: when the gate leaves `ok` true the
result is exactly one hit, with wavelength 300 and momentum 1; the yield model,
the attenuation length, `exp` and the random numbers do not enter it. -/
theorem fiducial_cut_single_placeholder_hit (c : Collaborators) (s : Shower)
    (eng : RandomEngine) (aStep : G4Step) (o : Overload) (zv g1 : ℚ) (depth : Int)
    (ho : o.sampled = true)
    (hpass : ¬ (edepOf aStep o = 0 ∨ chargedStepLength aStep = 0))
    (hzv : zvOf s.gpar aStep o = .ok zv)
    (h1 : s.gpar[1]? = some g1)
    (hf : s.applyFidCut = true)
    (hok : fiducial c s aStep zv = .ok (true, depth)) :
    ∃ out, call c s eng aStep o = .ok out ∧
      out.hits = [⟨depth,
        aStep.postGlobalTime
          + c.tShift ⟨aStep.prePosition.x, aStep.prePosition.y, zv⟩ depth s.chkFibre,
        300, 1, aStep.prePosition⟩] := by
  rw [call_sampled c s eng aStep o zv ho hzv hpass,
    buildHits_cut c s eng aStep _ zv g1 depth h1 hok hf]
  exact ⟨_, rfl, rfl⟩

/-- Witness for C8: channel 30 at `zv = 10 > gpar[0] = 5`: one hit of depth 2. -/
theorem fiducial_cut_single_placeholder_hit_witness :
    ∃ out, call demoCollaborators
        { demoShower with applyFidCut := true, gpar := [5, 100, 0, 0, 20] } demoEngine demoStep
        (.weighted 1) = .ok out ∧
      out.hits = [⟨2, 100 + 7, 300, 1, ⟨1, 2, 30⟩⟩] :=
  fiducial_cut_single_placeholder_hit demoCollaborators
    { demoShower with applyFidCut := true, gpar := [5, 100, 0, 0, 20] } demoEngine demoStep
    (.weighted 1) 10 100 2
    rfl
    (by simp [edepOf, chargedStepLength, demoStep])
    (by simp [zvOf, vecAt, demoShower, demoStep, ok_bind]; norm_num)
    rfl rfl
    (by
      rw [fiducial_cut demoCollaborators
        { demoShower with applyFidCut := true, gpar := [5, 100, 0, 0, 20] } demoStep 10 5 100
        rfl rfl rfl (by norm_num) (by norm_num)]
      simp [demoCollaborators]
      norm_num)

/-- C9. For each of the three overloads, every returned hit has the step's
pre-step position and the time `postGlobalTime + tShift(localPos, depth, chkFibre)`
with `localPos = (x, y, zv)` and `depth` as resolved by the gate; so all hits of a
call agree on position and time. -/
theorem hit_position_and_time (c : Collaborators) (s : Shower) (eng : RandomEngine)
    (aStep : G4Step) (o : Overload) (zv g1 zFibre : ℚ) (okb : Bool) (depth : Int)
    (r : NPEResult)
    (hzv : zvOf s.gpar aStep o = .ok zv)
    (h1 : s.gpar[1]? = some g1)
    (hfid : fiducial c s aStep zv = .ok (okb, depth))
    (hzF : zFibre = 0.5 * g1 - zv - aStep.objectTranslation.z)
    (hr : r = computeNPEAt c s eng aStep (chargedStepLength aStep) zFibre)
    (hm : okb = true → (s.applyFidCut = false ∨ o.sampled = false) → r.matched) :
    ∃ out, call c s eng aStep o = .ok out ∧
      ∀ h ∈ out.hits, h.position = aStep.prePosition ∧
        h.time = aStep.postGlobalTime
          + c.tShift ⟨aStep.prePosition.x, aStep.prePosition.y, zv⟩ depth s.chkFibre := by
  subst hzF
  subst hr
  by_cases hpass : edepOf aStep o = 0 ∨ chargedStepLength aStep = 0
  · rw [call_rejected c s eng aStep o hpass]
    exact ⟨_, rfl, by simp⟩
  · cases hs : o.sampled with
    | true =>
      rw [call_sampled c s eng aStep o zv hs hzv hpass]
      obtain ⟨out, he, hall⟩ := buildHits_position_time c s eng aStep _ zv g1 okb depth h1 hfid
        (fun hb hf => hm hb (Or.inl hf))
      exact ⟨out, he, fun h hh => ⟨(hall h hh).1, (hall h hh).2.1⟩⟩
    | false =>
      cases o with
      | weighted w => simp [Overload.sampled] at hs
      | offset f z => simp [Overload.sampled] at hs
      | library f =>
        rw [call_library c s eng aStep f zv g1 okb depth hpass hzv h1 hfid
          (fun hb => hm hb (Or.inr rfl))]
        refine ⟨_, rfl, ?_⟩
        intro h hh
        cases okb with
        | false => simp at hh
        | true =>
          simp only [if_true, List.mem_map] at hh
          obtain ⟨i, _, hi⟩ := hh
          subst hi
          exact ⟨rfl, rfl⟩

/-- Witness for C9: a sampled call in which one of three photons survives. -/
theorem hit_position_and_time_witness :
    ∃ out, call demoCollaborators demoShower demoEngine demoStep (.weighted 1) = .ok out ∧
      ∀ h ∈ out.hits, h.position = ⟨1, 2, 30⟩ ∧ h.time = 100 + 7 :=
  hit_position_and_time demoCollaborators demoShower demoEngine demoStep (.weighted 1)
    10 100 40 true 1 ⟨3, ⟨[300, 400, 500], [1, 2, 3]⟩, demoEngine⟩
    (by simp [zvOf, vecAt, demoShower, demoStep, ok_bind]; norm_num)
    rfl
    (by
      rw [fiducial_noCut demoCollaborators demoShower demoStep 10 100 rfl rfl]
      simp [demoStep]
      exact ⟨by norm_num, by decide⟩)
    (by norm_num [demoStep])
    rfl
    (fun _ _ => by simp [NPEResult.matched])

/-- C10. Mode C, for a step that passes the early reject and the gate: the
result has exactly `npe` hits, the `i`-th carrying `wavelength[i]` and `momz[i]`,
whatever `applyFidCut`, `chkFibre` and `probMax` are; the call itself draws no
random number. -/
theorem library_one_hit_per_photon (c : Collaborators) (s : Shower) (eng : RandomEngine)
    (aStep : G4Step) (forLibrary : Bool) (zv g1 zFibre : ℚ) (depth : Int) (r : NPEResult)
    (hpass : ¬ (edepOf aStep (.library forLibrary) = 0 ∨ chargedStepLength aStep = 0))
    (hzv : zvOf s.gpar aStep (.library forLibrary) = .ok zv)
    (h1 : s.gpar[1]? = some g1)
    (hok : fiducial c s aStep zv = .ok (true, depth))
    (hzF : zFibre = 0.5 * g1 - zv - aStep.objectTranslation.z)
    (hr : r = computeNPEAt c s eng aStep (chargedStepLength aStep) zFibre)
    (hnpe : 0 ≤ r.npe) (hm : r.matched) :
    ∃ out, call c s eng aStep (.library forLibrary) = .ok out ∧
      (out.hits.length : Int) = r.npe ∧
      out.hits.map (fun h => (h.wavelength, h.momentum))
        = (List.range r.npe.toNat).map
            (fun i => (r.cherenkov.wlv.getD i 0, r.cherenkov.momZ.getD i 0)) ∧
      out.engine = r.engine := by
  subst hzF
  subst hr
  rw [call_library c s eng aStep forLibrary zv g1 true depth hpass hzv h1 hok (fun _ => hm)]
  refine ⟨_, rfl, ?_, ?_, rfl⟩
  · simp only [if_true, List.length_map, List.length_range]
    exact Int.toNat_of_nonneg hnpe
  · simp only [if_true, List.map_map]
    rfl

/-- Witness for C10: the library overload at `|z| = 80`, so `zv = 80 - 20 - 50 = 10`,
with the fiducial cut set and channel 30 (`zv > gpar[0] = 5`): three hits. -/
theorem library_one_hit_per_photon_witness :
    ∃ out, call demoCollaborators
        { demoShower with applyFidCut := true, gpar := [5, 100, 0, 0, 20] } demoEngine
        { demoStep with prePosition := ⟨1, 2, 80⟩ } (.library true) = .ok out ∧
      (out.hits.length : Int) = 3 ∧
      out.hits.map (fun h => (h.wavelength, h.momentum))
        = (List.range 3).map (fun i => ([300, 400, 500].getD i 0, [1, 2, 3].getD i 0)) ∧
      out.engine = demoEngine :=
  library_one_hit_per_photon demoCollaborators
    { demoShower with applyFidCut := true, gpar := [5, 100, 0, 0, 20] } demoEngine
    { demoStep with prePosition := ⟨1, 2, 80⟩ } true 10 100 40 2
    ⟨3, ⟨[300, 400, 500], [1, 2, 3]⟩, demoEngine⟩
    (by simp [edepOf, chargedStepLength, demoStep])
    (by simp [zvOf, vecAt, demoShower, demoStep, ok_bind]; norm_num)
    rfl
    (by
      rw [fiducial_cut demoCollaborators
        { demoShower with applyFidCut := true, gpar := [5, 100, 0, 0, 20] }
        { demoStep with prePosition := ⟨1, 2, 80⟩ } 10 5 100
        rfl rfl rfl (by norm_num) (by norm_num)]
      simp [demoCollaborators]
      norm_num)
    (by norm_num [demoStep])
    rfl (by decide) (by simp [NPEResult.matched])

/-- C11, amended. Mode B is Mode A with `zv = gpar[1] - (|z| - zoffset)` in place
of `|z| - gpar[4]`: past the early reject, both overloads run the same code
(`buildHits`) on their own `zv`, and `getHits(aStep, forLibraryProducer, zoffset)`
returns what `getHits(aStep, 1)` returns whenever the two values of `zv` agree
(for `zoffset = gpar[4]`: at `|z| - gpar[4] = gpar[1] / 2`). -/
theorem offset_overload_mirrors_zv (c : Collaborators) (s : Shower) (eng : RandomEngine)
    (aStep : G4Step) (forLibraryProducer : Bool) (zoffset g1 g4 : ℚ)
    (h1 : s.gpar[1]? = some g1) (h4 : s.gpar[4]? = some g4) :
    (¬ (aStep.totalEnergyDeposit = 0 ∨ chargedStepLength aStep = 0) →
      call c s eng aStep (.offset forLibraryProducer zoffset)
          = buildHits c s eng aStep (chargedStepLength aStep)
              (g1 - (|aStep.prePosition.z| - zoffset)) ∧
        call c s eng aStep (.weighted 1)
          = buildHits c s eng aStep (chargedStepLength aStep) (|aStep.prePosition.z| - g4)) ∧
    (g1 - (|aStep.prePosition.z| - zoffset) = |aStep.prePosition.z| - g4 →
      call c s eng aStep (.offset forLibraryProducer zoffset)
        = call c s eng aStep (.weighted 1)) := by
  have hB := zvOf_offset s.gpar aStep forLibraryProducer zoffset g1 h1
  have hA := zvOf_weighted s.gpar aStep 1 g4 h4
  have key : ¬ (aStep.totalEnergyDeposit = 0 ∨ chargedStepLength aStep = 0) →
      call c s eng aStep (.offset forLibraryProducer zoffset)
          = buildHits c s eng aStep (chargedStepLength aStep)
              (g1 - (|aStep.prePosition.z| - zoffset)) ∧
        call c s eng aStep (.weighted 1)
          = buildHits c s eng aStep (chargedStepLength aStep) (|aStep.prePosition.z| - g4) := by
    intro hpass
    refine ⟨call_sampled c s eng aStep _ _ rfl hB hpass, ?_⟩
    exact call_sampled c s eng aStep (.weighted 1) _ rfl hA (by simpa [edepOf] using hpass)
  refine ⟨key, fun hz => ?_⟩
  by_cases hpass : aStep.totalEnergyDeposit = 0 ∨ chargedStepLength aStep = 0
  · rw [call_rejected c s eng aStep (.offset forLibraryProducer zoffset) hpass,
      call_rejected c s eng aStep (.weighted 1) (by simpa [edepOf] using hpass)]
  · rw [(key hpass).1, (key hpass).2, hz]

/-- Witness for C11: with `zoffset = -60` Mode B has `zv = 100 - (30 + 60) = 10`,
the `zv` of Mode A. -/
theorem offset_overload_mirrors_zv_witness :
    call demoCollaborators demoShower demoEngine demoStep (.offset true (-60))
      = call demoCollaborators demoShower demoEngine demoStep (.weighted 1) :=
  (offset_overload_mirrors_zv demoCollaborators demoShower demoEngine demoStep true (-60)
    100 20 rfl rfl).2 (by norm_num [demoStep])

/-- Counterexample to C11 as stated: with the fiducial cut, channel 30 and
`gpar = [50, 100, 0, 0, 20]`, the step at `|z| = 30` has `zv = 10` in Mode A (dead
region, no hit) and `zv = 100 - (30 - 20) = 90` in Mode B called with
`zoffset = gpar[4] = 20` (one hit of depth 2). -/
theorem offset_with_gpar4_differs_counterexample :
    ∃ outA outB,
      call demoCollaborators { demoShower with applyFidCut := true } demoEngine demoStep
        (.weighted 1) = .ok outA ∧
      call demoCollaborators { demoShower with applyFidCut := true } demoEngine demoStep
        (.offset true 20) = .ok outB ∧
      outA.hits = [] ∧ outB.hits = [⟨2, 107, 300, 1, ⟨1, 2, 30⟩⟩] := by
  have hpass : ¬ (demoStep.totalEnergyDeposit = 0 ∨ chargedStepLength demoStep = 0) := by
    simp [chargedStepLength, demoStep]
  have hzA : zvOf [50, 100, 0, 0, 20] demoStep (.weighted 1) = .ok 10 := by
    simp [zvOf, vecAt, demoStep, ok_bind]; norm_num
  have hzB : zvOf [50, 100, 0, 0, 20] demoStep (.offset true 20) = .ok 90 := by
    simp [zvOf, vecAt, demoStep, ok_bind]; norm_num
  have hfA : fiducial demoCollaborators { demoShower with applyFidCut := true } demoStep 10
      = .ok (false, 1) := by
    rw [fiducial_cut demoCollaborators { demoShower with applyFidCut := true } demoStep 10 50 100
      rfl rfl rfl (by norm_num) (by norm_num)]
    simp [demoCollaborators]
    norm_num
  have hfB : fiducial demoCollaborators { demoShower with applyFidCut := true } demoStep 90
      = .ok (true, 2) := by
    rw [fiducial_cut demoCollaborators { demoShower with applyFidCut := true } demoStep 90 50 100
      rfl rfl rfl (by norm_num) (by norm_num)]
    simp [demoCollaborators]
    norm_num
  have hA : call demoCollaborators { demoShower with applyFidCut := true } demoEngine demoStep
      (.weighted 1) = .ok ⟨[], demoShower.cherenkov, demoEngine⟩ := by
    rw [call_sampled demoCollaborators _ demoEngine demoStep (.weighted 1) 10 rfl hzA
      (by simpa [edepOf] using hpass)]
    exact buildHits_gated demoCollaborators { demoShower with applyFidCut := true } demoEngine
      demoStep _ 10 100 1 rfl hfA
  have hB := call_sampled demoCollaborators { demoShower with applyFidCut := true } demoEngine
    demoStep (.offset true 20) 90 rfl hzB hpass
  rw [buildHits_cut demoCollaborators { demoShower with applyFidCut := true } demoEngine demoStep
    _ 90 100 2 rfl hfB rfl] at hB
  refine ⟨_, _, hA, hB, rfl, ?_⟩
  simp [demoStep, demoCollaborators, demoShower]
  norm_num

/-- C12, amended. Every hit returned by Modes A and B has depth 1 or 2 when
`applyFidCut` is set; when it is not, the depth is the touchable's replica number
modulo 10 (the remainder of C++, with the sign of the replica number), whatever
that value is. -/
theorem hit_depth_by_configuration (c : Collaborators) (s : Shower) (eng : RandomEngine)
    (aStep : G4Step) (o : Overload) (zv g1 zFibre : ℚ) (okb : Bool) (depth : Int)
    (r : NPEResult)
    (ho : o.sampled = true)
    (hzv : zvOf s.gpar aStep o = .ok zv)
    (h1 : s.gpar[1]? = some g1)
    (hfid : fiducial c s aStep zv = .ok (okb, depth))
    (hzF : zFibre = 0.5 * g1 - zv - aStep.objectTranslation.z)
    (hr : r = computeNPEAt c s eng aStep (chargedStepLength aStep) zFibre)
    (hm : okb = true → s.applyFidCut = false → r.matched) :
    ∃ out, call c s eng aStep o = .ok out ∧
      ∀ h ∈ out.hits,
        (s.applyFidCut = true → h.depth = 1 ∨ h.depth = 2) ∧
        (s.applyFidCut = false → h.depth = Int.tmod aStep.replicaNumber 10) := by
  subst hzF
  subst hr
  by_cases hpass : edepOf aStep o = 0 ∨ chargedStepLength aStep = 0
  · rw [call_rejected c s eng aStep o hpass]
    exact ⟨_, rfl, by simp⟩
  · rw [call_sampled c s eng aStep o zv ho hzv hpass]
    cases okb with
    | false =>
      rw [buildHits_gated c s eng aStep _ zv g1 depth h1 hfid]
      exact ⟨_, rfl, by simp⟩
    | true =>
      obtain ⟨out, he, hall⟩ := buildHits_position_time c s eng aStep _ zv g1 true depth h1 hfid
        hm
      obtain ⟨hd1, hd2⟩ := fiducial_depth c s aStep zv true depth hfid
      refine ⟨out, he, fun h hh => ?_⟩
      rw [(hall h hh).2.2]
      exact ⟨fun hf => hd2 hf rfl, fun hf => hd1 hf⟩

/-- Witness for C12: replica number 3 without the fiducial cut. -/
theorem hit_depth_by_configuration_witness :
    ∃ out, call demoCollaborators { demoShower with chkFibre := -1 } demoEngine
        { demoStep with replicaNumber := 3 } (.weighted 1) = .ok out ∧
      ∀ h ∈ out.hits, (false = true → h.depth = 1 ∨ h.depth = 2) ∧
        (false = false → h.depth = Int.tmod 3 10) :=
  hit_depth_by_configuration demoCollaborators { demoShower with chkFibre := -1 } demoEngine
    { demoStep with replicaNumber := 3 } (.weighted 1) 10 100 40 true 3
    ⟨3, ⟨[300, 400, 500], [1, 2, 3]⟩, demoEngine⟩
    rfl
    (by simp [zvOf, vecAt, demoShower, demoStep, ok_bind]; norm_num)
    rfl
    (by
      rw [fiducial_noCut demoCollaborators { demoShower with chkFibre := -1 }
        { demoStep with replicaNumber := 3 } 10 100 rfl rfl]
      simp
      exact ⟨by norm_num, by decide⟩)
    (by norm_num [demoStep])
    rfl
    (fun _ _ => by simp [NPEResult.matched])

/-- Counterexample to C12 as stated: without the fiducial cut a step in a
touchable with replica number 3 gives hits of depth 3. -/
theorem depth_three_counterexample :
    ∃ out, call demoCollaborators { demoShower with chkFibre := -1 } demoEngine
        { demoStep with replicaNumber := 3 } (.weighted 1) = .ok out ∧
      out.hits = [⟨3, 107, 300, 1, ⟨1, 2, 30⟩⟩, ⟨3, 107, 400, 2, ⟨1, 2, 30⟩⟩,
        ⟨3, 107, 500, 3, ⟨1, 2, 30⟩⟩] ∧
      ∃ h ∈ out.hits, h.depth ≠ 1 ∧ h.depth ≠ 2 := by
  have hpass : ¬ (edepOf { demoStep with replicaNumber := 3 } (.weighted 1) = 0 ∨
      chargedStepLength { demoStep with replicaNumber := 3 } = 0) := by
    simp [edepOf, chargedStepLength, demoStep]
  have hz : zvOf [50, 100, 0, 0, 20] { demoStep with replicaNumber := 3 } (.weighted 1)
      = .ok 10 := by
    simp [zvOf, vecAt, demoStep, ok_bind]; norm_num
  have hf : fiducial demoCollaborators { demoShower with chkFibre := -1 }
      { demoStep with replicaNumber := 3 } 10 = .ok (true, 3) := by
    rw [fiducial_noCut demoCollaborators { demoShower with chkFibre := -1 }
      { demoStep with replicaNumber := 3 } 10 100 rfl rfl]
    simp
    exact ⟨by norm_num, by decide⟩
  have hc := call_sampled demoCollaborators { demoShower with chkFibre := -1 } demoEngine
    { demoStep with replicaNumber := 3 } (.weighted 1) 10 rfl hz hpass
  rw [buildHits_sampled demoCollaborators { demoShower with chkFibre := -1 } demoEngine
    { demoStep with replicaNumber := 3 } _ 10 100 3 rfl hf rfl
    (by simp [NPEResult.matched, computeNPEAt, demoCollaborators])] at hc
  have h3 : Int.toNat 3 = 3 := rfl
  simp only [candidate_unconditional _ _ _ _ _ _ _ _ _ _ _ _
    (Or.inr (show ({ demoShower with chkFibre := -1 } : Shower).chkFibre < 0 by decide)),
    computeNPEAt_demo, h3, List.range_succ, List.range_zero, List.nil_append, List.cons_append,
    List.filterMap_cons, List.filterMap_nil] at hc
  refine ⟨_, hc, ?_, ?_⟩
  · simp [demoCollaborators, demoStep, demoShower]
    norm_num
  · refine ⟨⟨3, 107, 300, 1, ⟨1, 2, 30⟩⟩, ?_, by decide, by decide⟩
    simp [demoCollaborators, demoStep, demoShower]
    norm_num

/-- C13, amended. `initRun` does not check the geometry: for every provider whose
`gpar` has fewer than 5 entries it installs that sequence as it is and raises
nothing of its own (the call ends as the fibre's `initRun` ends), and a later
Mode A or Mode C call that gets past the early reject reads `gpar[4]` out of
bounds. -/
theorem initRun_installs_without_check {ε : Type}
    (fibre : Option (HcalDDDSimConstants → Except ε Unit)) (s : Shower)
    (hcons : HcalDDDSimConstants) (c : Collaborators) (eng : RandomEngine) (aStep : G4Step)
    (o : Overload)
    (hshort : hcons.getGparHF.length < 5)
    (ho : ∀ f z, o ≠ .offset f z)
    (hpass : ¬ (edepOf aStep o = 0 ∨ chargedStepLength aStep = 0)) :
    (initRun fibre s hcons).1 = { s with gpar := hcons.getGparHF } ∧
    (initRun fibre s hcons).2
      = (match fibre with
        | some fibreInitRun => fibreInitRun hcons
        | none => pure ()) ∧
    call c (initRun fibre s hcons).1 eng aStep o = .error .outOfRange := by
  have h1 : (initRun fibre s hcons).1 = { s with gpar := hcons.getGparHF } := by
    cases fibre <;> rfl
  refine ⟨h1, by cases fibre <;> rfl, ?_⟩
  rw [h1]
  exact call_faults_without_gpar4 c _ eng aStep o hshort ho hpass

/-- Witness for C13: `gpar = [50, 100]`, followed by a Mode C call. -/
theorem initRun_installs_without_check_witness :
    (initRun (some (fun _ => (pure () : Except Fault Unit))) demoShower ⟨[50, 100]⟩).1
      = { demoShower with gpar := [50, 100] } ∧
    (initRun (some (fun _ => (pure () : Except Fault Unit))) demoShower ⟨[50, 100]⟩).2
      = pure () ∧
    call demoCollaborators
        (initRun (some (fun _ => (pure () : Except Fault Unit))) demoShower ⟨[50, 100]⟩).1
        demoEngine { demoStep with prePosition := ⟨1, 2, 80⟩ } (.library true)
      = .error .outOfRange :=
  initRun_installs_without_check (some (fun _ => (pure () : Except Fault Unit))) demoShower
    ⟨[50, 100]⟩ demoCollaborators demoEngine { demoStep with prePosition := ⟨1, 2, 80⟩ }
    (.library true) (by decide) (fun f z h => by cases h)
    (by simp [edepOf, chargedStepLength, demoStep])

/-- Counterexample to C13 as stated: a provider with `gpar = [50, 100]` and a
fibre whose `initRun` returns normally; `initRun` returns normally with that
`gpar` installed, and the next `getHits(aStep, 1)` reads out of bounds. -/
theorem initRun_accepts_short_gpar_counterexample :
    (initRun (some (fun _ => (pure () : Except Fault Unit))) demoShower ⟨[50, 100]⟩).2 = .ok () ∧
    (initRun (some (fun _ => (pure () : Except Fault Unit))) demoShower ⟨[50, 100]⟩).1.gpar
      = [50, 100] ∧
    call demoCollaborators
        (initRun (some (fun _ => (pure () : Except Fault Unit))) demoShower ⟨[50, 100]⟩).1
        demoEngine demoStep (.weighted 1)
      = .error .outOfRange := by
  refine ⟨rfl, rfl, ?_⟩
  exact call_faults_without_gpar4 demoCollaborators _ demoEngine demoStep (.weighted 1)
    (by decide) (fun f z h => by cases h) (by simp [edepOf, chargedStepLength, demoStep])

/-- C14. If `gpar` has at least 5 entries and the vectors of the yield model hold
at least `npe` entries, then none of the three overloads reads a vector out of
bounds: the bounds-checked call returns a result, for every step. -/
theorem getHits_in_bounds (c : Collaborators) (s : Shower) (eng : RandomEngine)
    (aStep : G4Step) (o : Overload)
    (hg : 5 ≤ s.gpar.length)
    (hy : ∀ stepl zFibre, (computeNPEAt c s eng aStep stepl zFibre).matched) :
    ∃ out, call c s eng aStep o = .ok out := by
  have h0 := gpar_entry s 0 (by omega)
  have h1 := gpar_entry s 1 (by omega)
  have h4 := gpar_entry s 4 (by omega)
  by_cases hpass : edepOf aStep o = 0 ∨ chargedStepLength aStep = 0
  · exact ⟨_, call_rejected c s eng aStep o hpass⟩
  · obtain ⟨zv, hzv⟩ := zvOf_total s.gpar aStep o _ _ h1 h4
    obtain ⟨okb, depth, hfid⟩ := fiducial_total c s aStep zv _ _ h0 h1
    cases hs : o.sampled with
    | true =>
      rw [call_sampled c s eng aStep o zv hs hzv hpass]
      obtain ⟨out, he, _⟩ := buildHits_position_time c s eng aStep _ zv _ okb depth h1 hfid
        (fun _ _ => hy _ _)
      exact ⟨out, he⟩
    | false =>
      cases o with
      | weighted w => simp [Overload.sampled] at hs
      | offset f z => simp [Overload.sampled] at hs
      | library f =>
        exact ⟨_, call_library c s eng aStep f zv _ okb depth hpass hzv h1 hfid (fun _ => hy _ _)⟩

/-- Witness for C14: the offset overload on the five-entry `gpar`. -/
theorem getHits_in_bounds_witness :
    ∃ out, call demoCollaborators demoShower demoEngine demoStep (.offset true 20) = .ok out :=
  getHits_in_bounds demoCollaborators demoShower demoEngine demoStep (.offset true 20)
    (by decide) (fun _ _ => by simp [NPEResult.matched, computeNPEAt, demoCollaborators])

/-- C15, amended. In Modes A and B two numbers are drawn for every candidate
photon, used or not: when `ok` is true the call leaves the random engine
`2 * npe` positions further (`npe = 1` under `applyFidCut`, where the yield model
is not called; otherwise the count of the yield model, from where the yield model
left the engine), also when `applyFidCut` is set or `chkFibre < 0`, where every
candidate is accepted. -/
theorem two_draws_per_candidate (c : Collaborators) (s : Shower) (eng : RandomEngine)
    (aStep : G4Step) (o : Overload) (zv g1 zFibre : ℚ) (depth : Int) (r : NPEResult)
    (ho : o.sampled = true)
    (hpass : ¬ (edepOf aStep o = 0 ∨ chargedStepLength aStep = 0))
    (hzv : zvOf s.gpar aStep o = .ok zv)
    (h1 : s.gpar[1]? = some g1)
    (hok : fiducial c s aStep zv = .ok (true, depth))
    (hzF : zFibre = 0.5 * g1 - zv - aStep.objectTranslation.z)
    (hr : r = computeNPEAt c s eng aStep (chargedStepLength aStep) zFibre)
    (hm : s.applyFidCut = false → r.matched) :
    ∃ out, call c s eng aStep o = .ok out ∧
      out.engine = (if s.applyFidCut then ⟨eng.seq, eng.pos + 2 * 1⟩
        else ⟨r.engine.seq, r.engine.pos + 2 * r.npe.toNat⟩) ∧
      (s.applyFidCut = true ∨ s.chkFibre < 0 →
        out.hits.length = if s.applyFidCut then 1 else r.npe.toNat) := by
  rw [call_sampled c s eng aStep o zv ho hzv hpass]
  subst hzF
  cases hf : s.applyFidCut with
  | true =>
    rw [buildHits_cut c s eng aStep _ zv g1 depth h1 hok hf]
    exact ⟨_, rfl, rfl, fun _ => rfl⟩
  | false =>
    have hm' := hm hf
    rw [hr] at hm'
    rw [buildHits_sampled c s eng aStep _ zv g1 depth h1 hok hf hm']
    refine ⟨_, rfl, by rw [← hr]; rfl, fun hmode => ?_⟩
    have hc : s.chkFibre < 0 := by
      rcases hmode with h | h
      · cases h
      · exact h
    simp only [candidate_unconditional _ _ _ _ _ _ _ _ _ _ _ _ (Or.inr hc)]
    rw [← hr, length_filterMap_some, List.length_range]
    rfl

/-- Witness for C15: the fiducial cut with channel 30 at `zv = 10 > gpar[0] = 5`. -/
theorem two_draws_per_candidate_witness :
    ∃ out, call demoCollaborators
        { demoShower with applyFidCut := true, gpar := [5, 100, 0, 0, 20] } demoEngine demoStep
        (.weighted 1) = .ok out ∧
      out.engine = ⟨demoEngine.seq, 0 + 2 * 1⟩ ∧
      (true = true ∨ (1 : Int) < 0 → out.hits.length = 1) :=
  two_draws_per_candidate demoCollaborators
    { demoShower with applyFidCut := true, gpar := [5, 100, 0, 0, 20] } demoEngine demoStep
    (.weighted 1) 10 100 40 2 ⟨3, ⟨[300, 400, 500], [1, 2, 3]⟩, demoEngine⟩
    rfl
    (by simp [edepOf, chargedStepLength, demoStep])
    (by simp [zvOf, vecAt, demoShower, demoStep, ok_bind]; norm_num)
    rfl
    (by
      rw [fiducial_cut demoCollaborators
        { demoShower with applyFidCut := true, gpar := [5, 100, 0, 0, 20] } demoStep 10 5 100
        rfl rfl rfl (by norm_num) (by norm_num)]
      simp [demoCollaborators]
      norm_num)
    (by norm_num [demoStep])
    rfl
    (fun h => by cases h)

/-- Counterexample to C15 as stated: with the fiducial cut set the single
pseudo-photon is accepted, and the random engine is left two positions further. -/
theorem fiducial_cut_draws_two_counterexample :
    ∃ out, call demoCollaborators
        { demoShower with applyFidCut := true, gpar := [5, 100, 0, 0, 20] } demoEngine demoStep
        (.weighted 1) = .ok out ∧
      out.hits.length = 1 ∧ out.engine.pos = demoEngine.pos + 2 ∧ out.engine ≠ demoEngine := by
  have hpass : ¬ (edepOf demoStep (.weighted 1) = 0 ∨ chargedStepLength demoStep = 0) := by
    simp [edepOf, chargedStepLength, demoStep]
  have hz : zvOf [5, 100, 0, 0, 20] demoStep (.weighted 1) = .ok 10 := by
    simp [zvOf, vecAt, demoStep, ok_bind]; norm_num
  have hf : fiducial demoCollaborators
      { demoShower with applyFidCut := true, gpar := [5, 100, 0, 0, 20] } demoStep 10
      = .ok (true, 2) := by
    rw [fiducial_cut demoCollaborators
      { demoShower with applyFidCut := true, gpar := [5, 100, 0, 0, 20] } demoStep 10 5 100
      rfl rfl rfl (by norm_num) (by norm_num)]
    simp [demoCollaborators]
    norm_num
  have hc := call_sampled demoCollaborators
    { demoShower with applyFidCut := true, gpar := [5, 100, 0, 0, 20] } demoEngine demoStep
    (.weighted 1) 10 rfl hz hpass
  rw [buildHits_cut demoCollaborators
    { demoShower with applyFidCut := true, gpar := [5, 100, 0, 0, 20] } demoEngine demoStep
    _ 10 100 2 rfl hf rfl] at hc
  refine ⟨_, hc, rfl, rfl, ?_⟩
  intro h
  have hp := congrArg RandomEngine.pos h
  simp [demoEngine] at hp

/-- C16. Modes A and B with `applyFidCut` false and `chkFibre ≥ 0`: when
`probMax ≥ 1` and every number of the random engine lies in `[0, 1)`, photon `i`
yields a hit exactly when `r1 ≤ exp(-attLength(wavelength[i]) * zFibre)`; `r2`
does not enter the decision. -/
theorem sampling_probMax_ge_one (c : Collaborators) (s : Shower) (eng : RandomEngine)
    (aStep : G4Step) (o : Overload) (zv g1 zFibre : ℚ) (depth : Int) (r : NPEResult)
    (ho : o.sampled = true)
    (hpass : ¬ (edepOf aStep o = 0 ∨ chargedStepLength aStep = 0))
    (hzv : zvOf s.gpar aStep o = .ok zv)
    (h1 : s.gpar[1]? = some g1)
    (hok : fiducial c s aStep zv = .ok (true, depth))
    (hzF : zFibre = 0.5 * g1 - zv - aStep.objectTranslation.z)
    (hr : r = computeNPEAt c s eng aStep (chargedStepLength aStep) zFibre)
    (hf : s.applyFidCut = false) (hchk : 0 ≤ s.chkFibre) (hm : r.matched)
    (hp : 1 ≤ s.probMax)
    (hdraw : ∀ n, 0 ≤ r.engine.seq n ∧ r.engine.seq n < 1) :
    ∃ out, call c s eng aStep o = .ok out ∧
      out.hits = (List.range r.npe.toNat).filterMap (fun i =>
        if r.engine.seq (r.engine.pos + 2 * i)
              ≤ c.exp (-(c.attLength (r.cherenkov.wlv.getD i 0)) * zFibre) then
          some ⟨depth,
            aStep.postGlobalTime
              + c.tShift ⟨aStep.prePosition.x, aStep.prePosition.y, zv⟩ depth s.chkFibre,
            r.cherenkov.wlv.getD i 0, r.cherenkov.momZ.getD i 0, aStep.prePosition⟩
        else none) := by
  rw [call_sampled c s eng aStep o zv ho hzv hpass]
  subst hzF
  rw [hr] at hm
  rw [buildHits_sampled c s eng aStep _ zv g1 depth h1 hok hf hm]
  refine ⟨_, rfl, ?_⟩
  simp only [candidate_sampling _ _ _ _ _ _ _ _ _ _ _ _ hf hchk]
  rw [← hr]
  have h2 : ∀ n, r.engine.seq n ≤ s.probMax := fun n => le_trans (le_of_lt (hdraw n).2) hp
  simp only [h2, and_true]

/-- Witness for C16: `probMax = 1` and an engine delivering 9/10 and 1/10. -/
theorem sampling_probMax_ge_one_witness :
    ∃ out, call demoCollaborators demoShower demoEngine demoStep (.weighted 1) = .ok out ∧
      out.hits = (List.range 3).filterMap (fun i =>
        if demoEngine.seq (0 + 2 * i)
            ≤ demoCollaborators.exp
                (-(demoCollaborators.attLength ([300, 400, 500].getD i 0)) * 40) then
          some ⟨1, 100 + 7, [300, 400, 500].getD i 0, [1, 2, 3].getD i 0, ⟨1, 2, 30⟩⟩
        else none) :=
  sampling_probMax_ge_one demoCollaborators demoShower demoEngine demoStep (.weighted 1)
    10 100 40 1 ⟨3, ⟨[300, 400, 500], [1, 2, 3]⟩, demoEngine⟩
    rfl
    (by simp [edepOf, chargedStepLength, demoStep])
    (by simp [zvOf, vecAt, demoShower, demoStep, ok_bind]; norm_num)
    rfl
    (by
      rw [fiducial_noCut demoCollaborators demoShower demoStep 10 100 rfl rfl]
      simp [demoStep]
      exact ⟨by norm_num, by decide⟩)
    (by norm_num [demoStep])
    rfl rfl (by decide) (by simp [NPEResult.matched])
    (by norm_num [demoShower])
    (by
      intro n
      simp only [demoEngine]
      split_ifs <;> norm_num)

/-- C18. In `getHits(aStep, weight)` the weight enters only the test for a zero
deposit: for every weight with `weight * edep ≠ 0` the call returns what
`getHits(aStep, 1)` returns (the same hits, or the same fault), for the same
geometry, configuration, collaborators and random engine. -/
theorem getHits_weight_irrelevant (c : Collaborators) (s : Shower) (eng : RandomEngine)
    (aStep : G4Step) (w : ℚ) (hw : w * aStep.totalEnergyDeposit ≠ 0) :
    getHits c s eng aStep w = getHits c s eng aStep 1 := by
  have he : aStep.totalEnergyDeposit ≠ 0 := fun h => hw (by rw [h, mul_zero])
  have h1 : (1 : ℚ) * aStep.totalEnergyDeposit ≠ 0 := by rwa [one_mul]
  unfold getHits
  by_cases hs : chargedStepLength aStep = 0
  · simp [hs]
  · simp only [hw, h1, hs, or_self, if_false]

/-- Witness for C18: weight 3 against weight 1. -/
theorem getHits_weight_irrelevant_witness :
    getHits demoCollaborators demoShower demoEngine demoStep 3
      = getHits demoCollaborators demoShower demoEngine demoStep 1 :=
  getHits_weight_irrelevant demoCollaborators demoShower demoEngine demoStep 3
    (by norm_num [demoStep])

end HFShower

namespace HLTMultipletFilter

/-! ## Lemmas on the embedding -/

theorem objectsBody_eq (f : Filter) (p : L1Candidate) (nobj : Int) :
    objectsBody f p nobj = nobj + (if passesCuts f p = true then 1 else 0) := by
  unfold objectsBody passesCuts
  by_cases h1 : p.pt > f.minPt
  · by_cases h2 : p.eta > f.minEta ∧ p.eta < f.maxEta
    · by_cases h3 : (if p.phi < 0 then p.phi + 2 * M_PI else p.phi) > f.minPhi ∧
          (if p.phi < 0 then p.phi + 2 * M_PI else p.phi) < f.maxPhi
      · simp [h1, h2.1, h2.2, h3.1, h3.2]
      · have h3' : ¬ (f.minPhi < (if p.phi < 0 then p.phi + 2 * M_PI else p.phi) ∧
            (if p.phi < 0 then p.phi + 2 * M_PI else p.phi) < f.maxPhi) := h3
        simp only [h1, h2, h3, h3', if_true, if_false, and_self, decide_True, decide_False,
          Bool.and_false, Bool.false_eq_true, add_zero, gt_iff_lt]
    · have h2' : ¬ (f.minEta < p.eta ∧ p.eta < f.maxEta) := h2
      simp only [h1, h2, h2', if_true, if_false, decide_True, decide_False, Bool.and_false,
        Bool.false_and, Bool.false_eq_true, add_zero]
  · simp only [h1, if_false, decide_False, Bool.false_and, Bool.false_eq_true, add_zero]

theorem objectsLoop_eq (f : Filter) (objs : List L1Candidate) :
    ∀ nobj : Int, objectsLoop f objs nobj = nobj + ((objs.filter (passesCuts f)).length : Int) := by
  induction objs with
  | nil => intro nobj; simp [objectsLoop]
  | cons p rest ih =>
    intro nobj
    rw [objectsLoop, ih, objectsBody_eq]
    by_cases h : passesCuts f p = true
    · simp only [h, if_true, List.filter_cons_of_pos, List.length_cons, Nat.cast_add,
        Nat.cast_one]
      ring
    · simp only [h, if_false, List.filter_cons_of_neg, Bool.false_eq_true, add_zero,
        not_false_eq_true]

theorem flagged_objects_eq_passing (f : Filter) (iEvent : Event) (type : Types) :
    (if f.flag type = true then objects f iEvent type else 0) = passing f iEvent type := by
  unfold passing objects
  cases f.flag type with
  | false => simp
  | true =>
    cases iEvent.getByToken type with
    | none => simp
    | some objs => simp [objectsLoop_eq]

theorem passing_nonneg (f : Filter) (iEvent : Event) (type : Types) :
    0 ≤ passing f iEvent type := by
  unfold passing
  split
  · split
    · exact le_refl _
    · exact Int.natCast_nonneg _
  · exact le_refl _

theorem block_inv (f : Filter) (iEvent : Event) (type : Types) (st : Bool × Int)
    (total : Int) (enabled : Prop) (h : BlockInv f st total enabled) :
    BlockInv f (block f iEvent type st) (total + passing f iEvent type)
      (enabled ∨ f.flag type = true) := by
  obtain ⟨acc, n⟩ := st
  have hp := passing_nonneg f iEvent type
  have hc := flagged_objects_eq_passing f iEvent type
  unfold BlockInv at h ⊢
  cases acc with
  | true =>
    obtain ⟨h1, h2⟩ := h.1 rfl
    have hb : block f iEvent type (true, n) = (true, n) := by simp [block]
    rw [hb]
    exact ⟨fun _ => ⟨(by omega), Or.inl h2⟩, fun ha => by cases ha⟩
  | false =>
    obtain ⟨h1, h2⟩ := h.2 rfl
    simp only at h1
    cases hf : f.flag type with
    | false =>
      rw [hf] at hc
      simp only [Bool.false_eq_true, if_false] at hc
      have hb : block f iEvent type (false, n) = (false, n) := by simp [block, hf]
      rw [hb]
      refine ⟨fun ha => (by cases ha), fun _ => ⟨(by simp only; omega), fun e => ?_⟩⟩
      rcases e with e | e
      · have := h2 e
        omega
      · cases e
    | true =>
      rw [hf] at hc
      simp only [if_true] at hc
      by_cases hgt : n + objects f iEvent type > f.minN
      · have hb : block f iEvent type (false, n) = (true, n + objects f iEvent type) := by
          simp [block, hf, hgt]
        rw [hb]
        exact ⟨fun _ => ⟨(by omega), Or.inr rfl⟩, fun ha => by cases ha⟩
      · have hb : block f iEvent type (false, n) = (false, n + objects f iEvent type) := by
          simp [block, hf, hgt]
        rw [hb]
        exact ⟨fun ha => (by cases ha), fun _ => ⟨(by simp only; omega), fun _ => by omega⟩⟩

/-! ## Claims -/

/-- C17, amended. `hltFilter` accepts exactly when at least one collection is
enabled and the number of passing candidates of bunch crossing 0, summed over
the enabled collections present in the event, is strictly greater than `minN`
(the first condition follows from the second when `minN ≥ 0`); so leaving the
remaining collections unread after an accepting one does not change the
decision, and an event with exactly `minN` passing candidates is rejected. -/
theorem hltFilter_accepts_iff (f : Filter) (iEvent : Event) :
    (hltFilter f iEvent = true ↔
      (∃ type, f.flag type = true) ∧ f.minN < passingTotal f iEvent) ∧
    (passingTotal f iEvent = f.minN → hltFilter f iEvent = false) := by
  have h0 : BlockInv f (false, 0) 0 False :=
    ⟨fun ha => (by cases ha), fun _ => ⟨rfl, fun e => e.elim⟩⟩
  have h1 := block_inv f iEvent .EGamma _ _ _ h0
  have h2 := block_inv f iEvent .EtSum _ _ _ h1
  have h3 := block_inv f iEvent .Jet _ _ _ h2
  have h4 := block_inv f iEvent .Muon _ _ _ h3
  have h5 := block_inv f iEvent .Tau _ _ _ h4
  have htot : 0 + passing f iEvent .EGamma + passing f iEvent .EtSum + passing f iEvent .Jet
      + passing f iEvent .Muon + passing f iEvent .Tau = passingTotal f iEvent := by
    unfold passingTotal
    ring
  rw [htot] at h5
  have hen : ((((False ∨ f.flag .EGamma = true) ∨ f.flag .EtSum = true) ∨ f.flag .Jet = true)
      ∨ f.flag .Muon = true) ∨ f.flag .Tau = true ↔ ∃ type, f.flag type = true := by
    constructor
    · rintro (((((h | h) | h) | h) | h) | h)
      · exact h.elim
      all_goals exact ⟨_, h⟩
    · rintro ⟨type, h⟩
      cases type <;> simp [h]
  have hval : hltFilter f iEvent
      = (block f iEvent .Tau (block f iEvent .Muon (block f iEvent .Jet
          (block f iEvent .EtSum (block f iEvent .EGamma (false, 0)))))).1 := rfl
  rw [hval]
  obtain ⟨ha, hr⟩ := h5
  cases hacc : (block f iEvent .Tau (block f iEvent .Muon (block f iEvent .Jet
      (block f iEvent .EtSum (block f iEvent .EGamma (false, 0)))))).1 with
  | true =>
    obtain ⟨hgt, he⟩ := ha hacc
    exact ⟨⟨fun _ => ⟨hen.mp he, hgt⟩, fun _ => rfl⟩, fun heq => by omega⟩
  | false =>
    obtain ⟨_, hle⟩ := hr hacc
    refine ⟨⟨fun h => (by cases h), fun h => ?_⟩, fun _ => rfl⟩
    have := hle (hen.mpr h.1)
    omega

/-- Counterexample to C17 as stated: with no collection enabled and `minN = -1`
the total is 0, which is greater than `minN`, and the event is rejected. -/
theorem nothing_enabled_counterexample :
    hltFilter { demoFilter with minN := -1, flag := fun _ => false } demoEvent = false ∧
    ({ demoFilter with minN := -1, flag := fun _ => false } : Filter).minN
      < passingTotal { demoFilter with minN := -1, flag := fun _ => false } demoEvent := by
  constructor
  · simp [hltFilter, block]
  · simp [passingTotal, passing]

end HLTMultipletFilter
